import Mathlib

/-!
Shallow embedding of `BlocksService` (substrate-api-sidecar).

This file embeds the block-enrichment pipeline of `src/services/blocks`
(`BlocksService`: `fetchBlock`, `extractExtrinsics`, `sanitizeEvents`,
`createCalcFee`, `fetchEvents`, `parseGenericCall`,
`parseArrayGenericCalls`, `extractAuthor`) and proves the specification
claims about it.

Modelling conventions:
* `async` RPC/codec collaborators (`@polkadot/api`, `@substrate/calc`,
  crypto) are oracles: explicit function fields of `ChainApi` / `Block`.
* JS `T | undefined | null` is `Option`; a JS `throw` is `Except.error`.
* JS numbers/BigInt that the service only ever renders or compares are
  `Nat` / `String` exactly as the source renders them.
-/

namespace Sidecar

/-- A JS value that is either a string or a number (the service assigns
both shapes to `specName` / `specVersion`). -/
inductive JsVal where
  | s (v : String)
  | n (v : Nat)
  deriving DecidableEq, Repr

/-- Template-literal rendering of a `JsVal` (JS string interpolation). -/
def JsVal.render : JsVal → String
  | .s v => v
  | .n v => toString v

/-- The JSON value found in a `paysFee` field of decoded event data:
`true`, `false`, the string `"Yes"`, or anything else. -/
inductive PaysFeeRaw where
  | bTrue
  | bFalse
  | yes
  | other
  deriving DecidableEq, Repr

/-- One decoded event-data item, as the service observes it: optionally a
`paysFee` field (present iff `isPaysFee` holds of the JSON datum) and,
when the item is a `DispatchInfo`, a `weight` and a dispatch `class`.
`weight = none` models a JS `undefined` weight. -/
structure DataItem where
  paysFee : Option PaysFeeRaw := none
  weight : Option Nat := none
  cls : String := ""
  deriving DecidableEq, Repr

/-- Modelled from the spec: `isPaysFee` (in `src/types/util`, not among
the provided sources) recognises a decoded JSON datum carrying a
`paysFee` field. -/
def isPaysFee (d : DataItem) : Bool :=
  d.paysFee.isSome

/-- Model of `data.paysFee === true || data.paysFee === 'Yes'` (sanitizeEvents). -/
def paysFeeOf (d : DataItem) : Bool :=
  d.paysFee == some PaysFeeRaw.bTrue || d.paysFee == some PaysFeeRaw.yes

/-- Model of `EventRecord.phase`. Phases other than the three named ones are
ignored by `sanitizeEvents`. -/
inductive Phase where
  | applyExtrinsic (idx : Nat)
  | finalization
  | initialization
  | other
  deriving DecidableEq, Repr

/-- One raw event record: phase plus the event's section (pallet), method
name, decoded data and documentation. -/
structure EventRecord where
  phase : Phase
  sectionName : String
  method : String
  data : List DataItem
  docs : List String := []
  deriving DecidableEq, Repr

/-- Result of `fetchEvents`: `EventRecord[] | string` — the string is the
degraded-mode sentinel produced when the events query throws. -/
inductive Events where
  | ok (records : List EventRecord)
  | err (msg : String)
  deriving DecidableEq, Repr

/-- The `success` field of an extrinsic: a JS boolean, or the degraded
sentinel string. -/
inductive SuccessVal where
  | b (v : Bool)
  | s (msg : String)
  deriving DecidableEq, Repr

/-- The `info` field of an extrinsic: the initial empty object `{}`, an
`{ error: … }` record, or a `RuntimeDispatchInfo` built by
`api.createType` (whose `partialFee` is `none` when `calc_fee` returned
`null`). -/
inductive Info where
  | empty
  | error (msg : String)
  | dispatchInfo (weight : Nat) (cls : String) (partialFee : Option String)
  deriving DecidableEq, Repr

/-- A sanitized event as attached to extrinsics / lifecycle buckets. -/
structure SanitizedEvent where
  pallet : String
  method : String
  data : List DataItem
  docs : Option (List String)
  deriving DecidableEq, Repr

mutual
/-- A `GenericCall`: section, method, and the `args` `Struct` (an ordered
association list of parameter name to argument; `none` models the
defensive `callArgs && callArgs.defKeys` guard failing). -/
inductive GCall where
  | mk (sectionName method : String) (args : Option (List (String × GArg)))

/-- One argument `Codec` of a call: a JS array of codecs, a nested
`GenericCall`, or any other codec (carrying its `toRawType()` and
`toHex()` renderings). -/
inductive GArg where
  | arr (elems : List GArg)
  | call (c : GCall)
  | plain (rawType hex : String)
end

mutual
/-- Model of `ISanitizedCall`: `{ method: {pallet, method}, args }`. -/
inductive SCall where
  | mk (pallet method : String) (args : List (String × SArg))

/-- A sanitized argument: a codec passed through verbatim, a recursively
parsed call, or an array whose call elements were parsed. -/
inductive SArg where
  | codec (c : GArg)
  | parsed (c : SCall)
  | arr (elems : List SArg)
end

/-- The `args` projection of an `SCall`. -/
def SCall.args : SCall → List (String × SArg)
  | .mk _ _ a => a

/-- The pallet label of an `SCall`. -/
def SCall.pallet : SCall → String
  | .mk p _ _ => p

/-- The method label of an `SCall`. -/
def SCall.method : SCall → String
  | .mk _ m _ => m

end Sidecar

namespace Sidecar

/-- One hex digit (lower case), as `u8aToHex` renders bytes. -/
def hexDigit (n : Nat) : Char :=
  if n < 10 then Char.ofNat (48 + n) else Char.ofNat (87 + n)

/-- Model of `u8aToHex` (`@polkadot/util`): `0x` followed by two lower-case hex
digits per byte. -/
def u8aToHex (bytes : List Nat) : String :=
  "0x" ++ String.mk (bytes.foldr (fun b acc =>
    hexDigit (b / 16 % 16) :: hexDigit (b % 16) :: acc) [])

mutual
/-- Model of `parseGenericCall`: recursively label a call's arguments.  The
`fuel` budget bounds only the recursion through freshly *decoded* opaque
`Bytes` payloads (which is not structural); every run of the JS original
uses some finite such depth. -/
def parseGenericCall (reg : String → Option GCall) (fuel : Nat)
    (c : GCall) : SCall :=
  match c with
  | GCall.mk sec meth argsOpt =>
    SCall.mk sec meth
      (match argsOpt with
        | none => []
        | some args => parseArgsList reg fuel args)
termination_by (fuel, sizeOf c, 1)

/-- The `for (const paramName of callArgs.defKeys)` loop body of
`parseGenericCall`, over the ordered `args` struct. -/
def parseArgsList (reg : String → Option GCall) (fuel : Nat)
    (l : List (String × GArg)) : List (String × SArg) :=
  match l with
  | [] => []
  | (name, arg) :: rest =>
    (name, parseOneArg reg fuel name arg) :: parseArgsList reg fuel rest
termination_by (fuel, sizeOf l, 0)

/-- Dispatch on one named argument: array / nested call / opaque
byte-encoded call (`paramName === 'call' && rawType === 'Bytes'`,
decoded via the registry, raw bytes on decode failure) / any other
codec verbatim. -/
def parseOneArg (reg : String → Option GCall) (fuel : Nat)
    (name : String) (a : GArg) : SArg :=
  match a with
  | GArg.arr elems => SArg.arr (parseArrayGenericCalls reg fuel elems)
  | GArg.call c => SArg.parsed (parseGenericCall reg fuel c)
  | GArg.plain rawType hex =>
    if name = "call" ∧ rawType = "Bytes" then
      match fuel, reg hex with
      | f + 1, some c => SArg.parsed (parseGenericCall reg f c)
      | _, _ => SArg.codec (GArg.plain rawType hex)
    else SArg.codec (GArg.plain rawType hex)
termination_by (fuel, sizeOf a, 0)

/-- Model of `parseArrayGenericCalls`: parse every element that is itself a call,
leave every other element untouched. -/
def parseArrayGenericCalls (reg : String → Option GCall) (fuel : Nat)
    (l : List GArg) : List SArg :=
  match l with
  | [] => []
  | GArg.call c :: rest =>
    SArg.parsed (parseGenericCall reg fuel c) ::
      parseArrayGenericCalls reg fuel rest
  | e :: rest => SArg.codec e :: parseArrayGenericCalls reg fuel rest
termination_by (fuel, sizeOf l, 0)
end

end Sidecar

namespace Sidecar

/-- A digest log entry of the block header.  `engine`/`data` are the pair
inside a `PreRuntime` or `Consensus` item (`asPreRuntime`/`asConsensus`);
`value` is the raw rendering kept by the `logs` mapping. -/
structure DigestLog where
  type : String
  index : Nat
  value : String
  engine : String := ""
  data : String := ""

/-- One raw extrinsic of the fetched block body. `call` is the
`GenericCall` that `block.registry.createType('Call', method)`
reconstructs from `method`; `encodedBytes` is `extrinsic.toU8a()` (so
`encodedLength = encodedBytes.length`). -/
structure RawExtrinsic where
  sectionName : String
  methodName : String
  isSigned : Bool
  signature : String := ""
  signer : String := ""
  nonce : Nat := 0
  tip : Nat := 0
  encodedBytes : List Nat := []
  call : GCall
  docs : List String := []

/-- The fetched block (`api.rpc.chain.getBlock(hash).block`), with its
type registry modelled as the call decoder `registry.createType('Call',
hex)` — `none` when that decode throws. -/
structure Block where
  parentHash : List Nat
  number : Nat
  stateRoot : String := ""
  extrinsicsRoot : String := ""
  logs : List DigestLog := []
  extrinsics : List RawExtrinsic
  registry : String → Option GCall := fun _ => none

/-- Model of `getRuntimeVersion` result. -/
structure RuntimeVersion where
  specName : String
  specVersion : Nat
  deriving DecidableEq, Repr

/-- A raw `weightToFee` coefficient (`api.consts.transactionPayment.weightToFee`
entry, before serialization). -/
structure WeightCoeffRaw where
  coeffInteger : Nat
  coeffFrac : Nat
  degree : Nat
  negative : Bool
  deriving DecidableEq, Repr

/-- A serialized coefficient as handed to `CalcFee.from_params`
(`coeffInteger` rendered as a decimal string). -/
structure WeightCoeff where
  coeffInteger : String
  coeffFrac : Nat
  degree : Nat
  negative : Bool
  deriving DecidableEq, Repr

/-- The `system` constants of a runtime as the service reads them:
`extrinsicBaseWeight` (legacy location) and `blockWeights` (current
location).  `blockWeights = none` means the `blockWeights` object itself
is absent (a member access on it then throws); the inner `Option` is the
`perClass.normal.baseExtrinsic` value, with the intermediate objects
taken to be present exactly when `blockWeights` is. -/
structure SystemConsts where
  extrinsicBaseWeight : Option Nat
  blockWeights : Option (Option Nat)
  deriving DecidableEq, Repr

/-- A `calc_fee` implementation: weight and encoded length to either a
thrown error or a fee (`none` models a JS `null` fee). -/
def CalcFn := Nat → Nat → Except String (Option String)

/-- The `calcFee` object used by the fee loop: the dummy
`{ calc_fee: () => null }` installed when fee materials are missing, or
a real `CalcFee` built by `CalcFee.from_params`. -/
inductive CalcFeeObj where
  | dummy
  | real (f : CalcFn)

/-- Run `calc_fee` on a `CalcFeeObj`.  The dummy always returns `null`
and never throws. -/
def calcFeeRun : CalcFeeObj → Nat → Nat → Except String (Option String)
  | .dummy, _, _ => .ok none
  | .real f, w, len => f w len

/-- The RPC/codec collaborators of `BlocksService`, as oracles.  Every
`async` query the service awaits is a pure field here (the service
issues read-only queries and performs no retries). -/
structure ChainApi where
  /-- Model of `api.rpc.chain.getBlock(hash).block`. -/
  getBlock : List Nat → Block
  /-- Model of `api.query.system.events.at(hash)`; `none` means the query threw. -/
  queryEventsAt : List Nat → Option (List EventRecord)
  /-- Model of `typeof api.query.session?.validators?.at === 'function'`. -/
  hasSessionValidators : Bool := false
  /-- Model of `api.query.session.validators.at(hash)`. -/
  sessionValidatorsAt : List Nat → List String := fun _ => []
  /-- Model of `api.consts.transactionPayment?.transactionByteFee`. -/
  transactionByteFee : Option Nat := none
  /-- Model of `api.consts.system.*` of the connected node's decorated metadata. -/
  systemConsts : SystemConsts := ⟨none, none⟩
  /-- Model of `typeof api.query.transactionPayment?.nextFeeMultiplier?.at === 'function'`. -/
  hasNextFeeMultiplierAt : Bool := false
  /-- Model of `api.consts.transactionPayment.weightToFee`. -/
  weightToFee : List WeightCoeffRaw := []
  /-- Model of `api.runtimeVersion` (the connected node's live version). -/
  runtimeVersion : RuntimeVersion := ⟨"", 0⟩
  /-- Model of `api.rpc.state.getRuntimeVersion(hash)`. -/
  getRuntimeVersionAt : List Nat → RuntimeVersion := fun _ => ⟨"", 0⟩
  /-- Model of `(await api.rpc.chain.getHeader(hash)).parentHash`. -/
  getHeaderParentHash : List Nat → List Nat := fun _ => []
  /-- Model of `api.query.transactionPayment.nextFeeMultiplier.at(hash)`, rendered
  by `.toString(10)`. -/
  nextFeeMultiplierAt : List Nat → String := fun _ => "0"
  /-- Model of `expandMetadata(api.registry, await api.rpc.state.getMetadata(hash))
  .consts.system`; `none` when the decorated metadata has no `system`. -/
  metadataSystemConstsAt : List Nat → Option SystemConsts := fun _ => none
  /-- Model of `CalcFee.from_params(coefficients, extrinsicBaseWeight, multiplier,
  perByte, specName, specVersion)` (`@substrate/calc`); `none` models the
  `null`/`undefined` it returns for unsupported runtimes. -/
  fromParams : List WeightCoeff → Nat → String → String → String → Nat →
      Option CalcFn := fun _ _ _ _ _ _ => none
  /-- Model of `api.createType('RuntimeDispatchInfo', { weight, class, partialFee })`. -/
  createRuntimeDispatchInfo : Nat → String → Option String → Info :=
    fun w c pf => Info.dispatchInfo w c pf
  /-- Model of `engine.extractAuthor(data, sessionValidators)` — consensus-engine
  specific, keyed by the engine identifier. -/
  engineExtractAuthor : String → String → List String → Option String :=
    fun _ _ _ => none
  /-- Model of `blake2AsU8a(bytes, 256)` (`@polkadot/util-crypto`). -/
  blake2AsU8a256 : List Nat → List Nat := fun b => b
  /-- Model of `this.sanitizeDocs` (`AbstractService`, not among the provided
  sources): renders documentation lines. -/
  sanitizeDocs : List String → List String := fun d => d

/-- Model of `IExtrinsic`: one assembled extrinsic record. -/
structure IExtrinsic where
  methodPallet : String
  methodName : String
  /-- Model of `{ signature, signer }` when signed, JS `null` otherwise. -/
  signature : Option (String × String)
  nonce : Option Nat
  args : List (String × SArg)
  tip : Option Nat
  hash : String
  info : Info
  events : List SanitizedEvent
  success : SuccessVal
  /-- JS `null` / `true` / `false`. -/
  paysFee : Option Bool
  docs : Option (List String)

/-- Model of `fetchEvents`: the events query, with its `catch` substituting the
degraded-mode sentinel string. -/
def fetchEvents (api : ChainApi) (hash : List Nat) : Events :=
  match api.queryEventsAt hash with
  | some records => .ok records
  | none => .err "Unable to fetch Events, cannot confirm extrinsic status. Check pruning settings on the node."

/-- The default `success` value: the sentinel message when the events
fetch failed, `false` otherwise. -/
def defaultSuccess (events : Events) : SuccessVal :=
  match events with
  | .err s => .s s
  | .ok _ => .b false

/-- The record built for one extrinsic by the `extractExtrinsics` map. -/
def extractOne (api : ChainApi) (block : Block) (events : Events)
    (extrinsicDocs : Bool) (fuel : Nat) (xt : RawExtrinsic) : IExtrinsic :=
  { methodPallet := xt.sectionName
    methodName := xt.methodName
    signature := if xt.isSigned then some (xt.signature, xt.signer) else none
    nonce := if xt.isSigned then some xt.nonce else none
    args := (parseGenericCall block.registry fuel xt.call).args
    tip := if xt.isSigned then some xt.tip else none
    hash := u8aToHex (api.blake2AsU8a256 xt.encodedBytes)
    info := .empty
    events := []
    success := defaultSuccess events
    paysFee := if xt.isSigned then none else some false
    docs := if extrinsicDocs then some (api.sanitizeDocs xt.docs) else none }

/-- Model of `extractExtrinsics`: map the block body to fresh `IExtrinsic`
records. -/
def extractExtrinsics (api : ChainApi) (block : Block) (events : Events)
    (extrinsicDocs : Bool) (fuel : Nat) : List IExtrinsic :=
  block.extrinsics.map (extractOne api block events extrinsicDocs fuel)

end Sidecar

namespace Sidecar

/-- The error text thrown for an event phase referencing a missing
extrinsic index. -/
def missingMsg (i : Nat) (hashStr : String) : String :=
  "Missing extrinsic " ++ toString i ++ " in block " ++ hashStr

/-- Build the sanitized view of one event record. -/
def mkSanitizedEvent (api : ChainApi) (eventDocs : Bool)
    (r : EventRecord) : SanitizedEvent :=
  { pallet := r.sectionName
    method := r.method
    data := r.data
    docs := if eventDocs then some (api.sanitizeDocs r.docs) else none }

/-- Model of `if (event.method === Event.success) extrinsic.success = true`. -/
def setSuccess (r : EventRecord) (xt : IExtrinsic) : IExtrinsic :=
  if r.method = "ExtrinsicSuccess" then { xt with success := .b true } else xt

/-- The `paysFee` overwrite on a success/failure sentinel:
`for (const data of sanitizedData) if (extrinsic.signature &&
isPaysFee(data)) { extrinsic.paysFee = …; break }` — the first
`paysFee`-bearing datum wins, and only for a signed extrinsic. -/
def setPaysFee (r : EventRecord) (xt : IExtrinsic) : IExtrinsic :=
  if r.method = "ExtrinsicSuccess" ∨ r.method = "ExtrinsicFailed" then
    if xt.signature.isSome then
      match r.data.find? isPaysFee with
      | some d => { xt with paysFee := some (paysFeeOf d) }
      | none => xt
    else xt
  else xt

/-- Mutation applied to `extrinsics[i]` by one `ApplyExtrinsic(i)` event:
set `success` on the success sentinel, overwrite `paysFee` from the
event data when the extrinsic is signed, and append the sanitized
event. -/
def attributeEvent (r : EventRecord) (se : SanitizedEvent)
    (xt : IExtrinsic) : IExtrinsic :=
  let xt2 := setPaysFee r (setSuccess r xt)
  { xt2 with events := xt2.events ++ [se] }

/-- The state threaded through the `sanitizeEvents` loop. -/
structure SanState where
  extrinsics : List IExtrinsic
  onInitialize : List SanitizedEvent
  onFinalize : List SanitizedEvent

/-- One iteration of the `sanitizeEvents` loop over the event records. -/
def sanitizeStep (api : ChainApi) (eventDocs : Bool) (hashStr : String)
    (st : SanState) (r : EventRecord) : Except String SanState :=
  match r.phase with
  | .applyExtrinsic i =>
    match st.extrinsics[i]? with
    | none => .error (missingMsg i hashStr)
    | some xt =>
      .ok { st with extrinsics :=
        st.extrinsics.set i (attributeEvent r (mkSanitizedEvent api eventDocs r) xt) }
  | .finalization =>
    .ok { st with onFinalize := st.onFinalize ++ [mkSanitizedEvent api eventDocs r] }
  | .initialization =>
    .ok { st with onInitialize := st.onInitialize ++ [mkSanitizedEvent api eventDocs r] }
  | .other => .ok st

/-- Model of `sanitizeEvents`: attribute events to extrinsics / lifecycle buckets.
When the events fetch failed (`events` is the sentinel string) the
`Array.isArray` guard skips the loop and the inputs pass through. -/
def sanitizeEvents (api : ChainApi) (events : Events)
    (extrinsics : List IExtrinsic) (hashStr : String) (eventDocs : Bool) :
    Except String SanState :=
  match events with
  | .err _ => .ok ⟨extrinsics, [], []⟩
  | .ok records =>
    records.foldlM (sanitizeStep api eventDocs hashStr) ⟨extrinsics, [], []⟩

/-- A record that would set `success = true` on extrinsic `idx`. -/
def isSuccessFor (idx : Nat) (r : EventRecord) : Prop :=
  r.phase = .applyExtrinsic idx ∧ r.method = "ExtrinsicSuccess"

/-- Model of `api.consts.system.extrinsicBaseWeight ||
api.consts.system.blockWeights.perClass.normal.baseExtrinsic`
(line of `createCalcFee` that computes `extrinsicBaseWeightExists`):
when the first operand is absent and `blockWeights` is absent too, the
member access throws a `TypeError`. -/
def sysBaseWeightOrThrow (sys : SystemConsts) : Except String (Option Nat) :=
  match sys.extrinsicBaseWeight with
  | some w => .ok (some w)
  | none =>
    match sys.blockWeights with
    | none => .error "TypeError: Cannot read property of undefined (reading blockWeights member)"
    | some inner => .ok inner

/-- Model of `decorated.consts.system?.extrinsicBaseWeight ||
(decorated.consts.system?.blockWeights).perClass?.normal?.baseExtrinsic`
over historical decorated metadata. -/
def historicalBaseWeight (sysOpt : Option SystemConsts) :
    Except String (Option Nat) :=
  match sysOpt.bind (fun s => s.extrinsicBaseWeight) with
  | some w => .ok (some w)
  | none =>
    match sysOpt.bind (fun s => s.blockWeights) with
    | none => .error "TypeError: Cannot read property of undefined (reading blockWeights member)"
    | some inner => .ok inner

/-- The version-keyed choice of where `extrinsicBaseWeight` lives: pull
it from historical decorated metadata when the resolved version differs
from the connected node's, from the live constants otherwise. -/
def resolveExtrinsicBaseWeight (api : ChainApi) (parentParentHash : List Nat)
    (specName : String) (specVersion : Nat) : Except String (Option Nat) :=
  if specName ≠ api.runtimeVersion.specName ∨
      specVersion ≠ api.runtimeVersion.specVersion then
    historicalBaseWeight (api.metadataSystemConstsAt parentParentHash)
  else
    sysBaseWeightOrThrow api.systemConsts

/-- Model of `createCalcFee`'s return value. -/
structure CalcFeeResult where
  calcFee : Option CalcFeeObj
  specName : JsVal
  specVersion : JsVal

/-- The branch of `createCalcFee` taken when fee materials are missing:
a dummy `calc_fee` is installed, and the destructuring
`[specVersion, specName] = [version.specName.toString(),
version.specVersion.toNumber()]` puts the name into `specVersion` and
the number into `specName` (sic, as in the source). -/
def dummyCalcFee (api : ChainApi) (parentHash : List Nat) : CalcFeeResult :=
  let version := api.getRuntimeVersionAt parentHash
  { calcFee := some .dummy
    specName := .n version.specVersion
    specVersion := .s version.specName }

/-- Model of `createCalcFee`: build the `CalcFee` for the block (or the dummy),
resolving the runtime version at the parent of the parent for blocks of
height above 1. -/
def createCalcFee (api : ChainApi) (parentHash : List Nat) (block : Block) :
    Except String CalcFeeResult := do
  let perByte := api.transactionByteFee
  let extrinsicBaseWeightExists ← sysBaseWeightOrThrow api.systemConsts
  match perByte with
  | none => return dummyCalcFee api parentHash
  | some pb =>
    if extrinsicBaseWeightExists.isNone ∨ !api.hasNextFeeMultiplierAt then
      return dummyCalcFee api parentHash
    else
      let coefficients := api.weightToFee.map fun c =>
        { coeffInteger := toString c.coeffInteger
          coeffFrac := c.coeffFrac
          degree := c.degree
          negative := c.negative : WeightCoeff }
      -- The block where the runtime is deployed falsely proclaims the new
      -- runtime, hence the parent of the parent for heights above 1.
      let parentParentHash :=
        if block.number > 1 then api.getHeaderParentHash parentHash
        else parentHash
      let version := api.getRuntimeVersionAt parentParentHash
      let multiplier := api.nextFeeMultiplierAt parentHash
      let specName := version.specName
      let specVersion := version.specVersion
      let extrinsicBaseWeightOpt ←
        resolveExtrinsicBaseWeight api parentParentHash specName specVersion
      match extrinsicBaseWeightOpt with
      | none => .error "`extrinsicBaseWeight` is not defined when it was expected to be defined. File an issue at https://github.com/paritytech/substrate-api-sidecar/issues"
      | some extrinsicBaseWeight =>
        let perByteStr :=
          if block.number < 515500 then "1000000000" else toString pb
        let calcFee := (api.fromParams coefficients extrinsicBaseWeight
          multiplier perByteStr specName specVersion).map CalcFeeObj.real
        return { calcFee
                 specName := .s specName
                 specVersion := .n specVersion }

end Sidecar

namespace Sidecar

/-- The `try { … }` body of the fee loop for one extrinsic, together
with its `catch`: any throw inside (the undefined-member access on an
empty data array, or a throwing `calc_fee`) is caught and recorded as
`{ error: 'Unable to fetch fee info' }`.  `isFrameMethod(method)` (a
type guard from `src/types/responses`, not among the provided sources)
always holds of the sanitized `{pallet, method}` records built here. -/
def tryFeeCompute (api : ChainApi) (calcObj : CalcFeeObj)
    (raw : RawExtrinsic) (xt : IExtrinsic) : Info :=
  match xt.events.find? (fun e =>
      e.method == "ExtrinsicSuccess" || e.method == "ExtrinsicFailed") with
  | none => .error "Unable to find success or failure event for extrinsic"
  | some completedEvent =>
    -- `if (!completedData)` cannot fire: event data is always an array.
    match completedEvent.data.getLast? with
    | none =>
      -- `completedData[completedData.length - 1]` is undefined, so the
      -- `.weight` access throws and the catch records the generic error.
      .error "Unable to fetch fee info"
    | some weightInfo =>
      match weightInfo.weight with
      | none => .error "Success or failure event for extrinsic does not specify weight"
      | some weight =>
        let len := raw.encodedBytes.length
        match calcFeeRun calcObj weight len with
        | .error _ => .error "Unable to fetch fee info"
        | .ok partialFee =>
          api.createRuntimeDispatchInfo weight weightInfo.cls partialFee

/-- One iteration of the fee loop: skip unless the extrinsic both pays a
fee and is signed; record the unsupported error when `calcFee` is
`null`/`undefined`; otherwise run the guarded fee computation. -/
def feeStep (api : ChainApi) (cf : CalcFeeResult) (raw : RawExtrinsic)
    (xt : IExtrinsic) : IExtrinsic :=
  if !(xt.paysFee == some true) || !raw.isSigned then xt
  else
    match cf.calcFee with
    | none =>
      { xt with info := .error ("Fee calculation not supported for " ++
          cf.specName.render ++ "#" ++ cf.specVersion.render) }
    | some calcObj => { xt with info := tryFeeCompute api calcObj raw xt }

/-- One iteration of the fee loop at index `idx`: overwrite
`extrinsics[idx]` in place from `block.extrinsics[idx]`. -/
def feeBody (api : ChainApi) (cf : CalcFeeResult)
    (raws : List RawExtrinsic) (acc : List IExtrinsic) (idx : Nat) :
    List IExtrinsic :=
  match raws[idx]?, acc[idx]? with
  | some raw, some xt => acc.set idx (feeStep api cf raw xt)
  | _, _ => acc

/-- The fee loop of `fetchBlock`:
`for (idx = 0; idx < block.extrinsics.length; ++idx)` reading
`block.extrinsics[idx]` and overwriting `extrinsics[idx].info`. -/
def feeLoop (api : ChainApi) (cf : CalcFeeResult)
    (raws : List RawExtrinsic) (xts : List IExtrinsic) : List IExtrinsic :=
  (List.range raws.length).foldl (feeBody api cf raws) xts

/-- Model of `extractAuthor`: first `PreRuntime` digest item, else first
`Consensus` item, else no author. -/
def extractAuthor (api : ChainApi) (sessionValidators : List String)
    (logs : List DigestLog) : Option String :=
  match logs.find? (fun l => l.type == "PreRuntime") with
  | some pitem => api.engineExtractAuthor pitem.engine pitem.data sessionValidators
  | none =>
    match logs.find? (fun l => l.type == "Consensus") with
    | some citem => api.engineExtractAuthor citem.engine citem.data sessionValidators
    | none => none

/-- Model of `IBlock`: the assembled result. -/
structure IBlock where
  number : Nat
  hash : List Nat
  parentHash : List Nat
  stateRoot : String
  extrinsicsRoot : String
  authorId : Option String
  logs : List DigestLog
  onInitialize : List SanitizedEvent
  extrinsics : List IExtrinsic
  onFinalize : List SanitizedEvent

/-- Model of `fetchBlock`: assemble the enriched block.  The second component of
the result records whether `createCalcFee` (the Fee Calculator) was
invoked — `false` exactly on the early genesis return. -/
def fetchBlock (api : ChainApi) (hash : List Nat)
    (eventDocs extrinsicDocs : Bool) (fuel : Nat) :
    Except String (IBlock × Bool) := do
  let block := api.getBlock hash
  let events := fetchEvents api hash
  let sessionValidators :=
    if api.hasSessionValidators then some (api.sessionValidatorsAt hash)
    else none
  let authorId := sessionValidators.bind fun vs =>
    extractAuthor api vs block.logs
  let nonSanitized := extractExtrinsics api block events extrinsicDocs fuel
  let st ← sanitizeEvents api events nonSanitized (u8aToHex hash) eventDocs
  -- The genesis block is a special case with little information
  -- associated with it (`parentHash.every((byte) => !byte)`).
  if block.parentHash.all (· == 0) then
    return ({ number := block.number
              hash
              parentHash := block.parentHash
              stateRoot := block.stateRoot
              extrinsicsRoot := block.extrinsicsRoot
              authorId
              logs := block.logs
              onInitialize := st.onInitialize
              extrinsics := st.extrinsics
              onFinalize := st.onFinalize }, false)
  else
    let cf ← createCalcFee api block.parentHash block
    let final := feeLoop api cf block.extrinsics st.extrinsics
    return ({ number := block.number
              hash
              parentHash := block.parentHash
              stateRoot := block.stateRoot
              extrinsicsRoot := block.extrinsicsRoot
              authorId
              logs := block.logs
              onInitialize := st.onInitialize
              extrinsics := final
              onFinalize := st.onFinalize }, true)

end Sidecar

namespace Sidecar

/-! ## Concrete fixtures

A small two-extrinsic block (an unsigned `timestamp.set` and a signed
`balances.transfer`) and `ChainApi` oracles for the runs the witnesses
and counterexamples evaluate. -/

/-- The call of the signed fixture extrinsic. -/
def transferCall : GCall := GCall.mk "balances" "transfer" (some [])

/-- Unsigned `timestamp.set` fixture extrinsic. -/
def rawUnsigned : RawExtrinsic :=
  { sectionName := "timestamp"
    methodName := "set"
    isSigned := false
    encodedBytes := [1]
    call := GCall.mk "timestamp" "set" (some []) }

/-- Signed `balances.transfer` fixture extrinsic. -/
def rawSigned : RawExtrinsic :=
  { sectionName := "balances"
    methodName := "transfer"
    isSigned := true
    signature := "sig"
    signer := "alice"
    nonce := 1
    encodedBytes := [2, 2]
    call := transferCall }

/-- An `ExtrinsicSuccess` event for extrinsic 1 whose `DispatchInfo`
datum carries `paysFee: true` and a weight. -/
def successEvent1 : EventRecord :=
  { phase := .applyExtrinsic 1
    sectionName := "system"
    method := "ExtrinsicSuccess"
    data := [{ paysFee := some .bTrue, weight := some 100, cls := "Normal" }] }

/-- Fixture block of height 10 (not genesis). -/
def blockA : Block :=
  { parentHash := [7], number := 10, extrinsics := [rawUnsigned, rawSigned] }

/-- Oracles of a runtime that has every fee-calculation material. -/
def apiSupported : ChainApi :=
  { getBlock := fun _ => blockA
    queryEventsAt := fun _ => some [successEvent1]
    transactionByteFee := some 3
    systemConsts := ⟨some 5, none⟩
    hasNextFeeMultiplierAt := true
    weightToFee := [⟨1, 0, 1, false⟩]
    runtimeVersion := ⟨"polkadot", 30⟩
    getRuntimeVersionAt := fun _ => ⟨"polkadot", 30⟩
    nextFeeMultiplierAt := fun _ => "1"
    fromParams := fun _ _ _ _ _ _ =>
      some (fun w len => .ok (some (toString (w + len)))) }

/-- The same oracles with `transactionPayment.transactionByteFee`
missing: the runtime does not support fee calculation. -/
def apiMissingPerByte : ChainApi :=
  { apiSupported with transactionByteFee := none }

/-- The fixture block with the all-zero parent hash (genesis). -/
def blockGenesis : Block :=
  { parentHash := [0, 0], number := 0, extrinsics := [rawUnsigned, rawSigned] }

/-- Oracles serving the genesis fixture block. -/
def apiGenesis : ChainApi :=
  { apiSupported with getBlock := fun _ => blockGenesis }

/-- Oracles whose events query succeeds with an empty event list. -/
def apiNoEvents : ChainApi :=
  { apiSupported with queryEventsAt := fun _ => some [] }

/-- Oracles whose events query throws (degraded mode). -/
def apiEventsFail : ChainApi :=
  { apiSupported with queryEventsAt := fun _ => none }

/-- Oracles whose `CalcFee.calc_fee` throws. -/
def apiThrowingCalc : ChainApi :=
  { apiSupported with
    fromParams := fun _ _ _ _ _ _ => some (fun _ _ => .error "calc panic") }

/-- Oracles of a node whose live runtime differs from the one resolved
at the grandparent hash `[42]` (a runtime upgrade at this block). -/
def apiUpgrade : ChainApi :=
  { apiSupported with
    getHeaderParentHash := fun _ => [42]
    getRuntimeVersionAt := fun h =>
      if h = [42] then ⟨"kusama", 2⟩ else ⟨"polkadot", 30⟩
    metadataSystemConstsAt := fun _ => some ⟨some 9, none⟩ }

/-- The fixture block placed above the per-byte-fee override
threshold. -/
def blockHigh : Block := { blockA with number := 600000 }

/-- Oracles serving `blockHigh`. -/
def apiHighBlock : ChainApi :=
  { apiSupported with getBlock := fun _ => blockHigh }

/-- An event whose phase references a non-existent extrinsic index. -/
def eventOob : EventRecord :=
  { phase := .applyExtrinsic 5
    sectionName := "system"
    method := "ExtrinsicSuccess"
    data := [] }

/-- A registry decoding the opaque payload `"0xdead"` into a call. -/
def regFix : String → Option GCall := fun h =>
  if h = "0xdead" then some (GCall.mk "balances" "transfer" (some [])) else none

/-- A `CalcFeeResult` whose `calc_fee` throws. -/
def cfThrow : CalcFeeResult :=
  { calcFee := some (.real (fun _ _ => .error "calc panic"))
    specName := .s "polkadot"
    specVersion := .n 30 }

/-- The sanitized completion event attached to the paying fixture
extrinsic. -/
def ceSuccess : SanitizedEvent :=
  { pallet := "system"
    method := "ExtrinsicSuccess"
    data := [{ paysFee := some .bTrue, weight := some 100, cls := "Normal" }]
    docs := none }

/-- A signed, fee-paying extrinsic record as it stands when the fee loop
reaches it. -/
def xtPay : IExtrinsic :=
  { methodPallet := "balances"
    methodName := "transfer"
    signature := some ("sig", "alice")
    nonce := some 1
    args := []
    tip := some 0
    hash := "0x0202"
    info := .empty
    events := [ceSuccess]
    success := .b true
    paysFee := some true
    docs := none }

end Sidecar

namespace Sidecar

/-! ## Structural lemmas about event attribution -/

lemma setSuccess_info (r : EventRecord) (xt : IExtrinsic) :
    (setSuccess r xt).info = xt.info := by
  unfold setSuccess; split <;> rfl

lemma setSuccess_signature (r : EventRecord) (xt : IExtrinsic) :
    (setSuccess r xt).signature = xt.signature := by
  unfold setSuccess; split <;> rfl

lemma setSuccess_paysFee (r : EventRecord) (xt : IExtrinsic) :
    (setSuccess r xt).paysFee = xt.paysFee := by
  unfold setSuccess; split <;> rfl

lemma setSuccess_success (r : EventRecord) (xt : IExtrinsic) :
    (setSuccess r xt).success =
      if r.method = "ExtrinsicSuccess" then .b true else xt.success := by
  unfold setSuccess; split <;> rfl

lemma setPaysFee_info (r : EventRecord) (xt : IExtrinsic) :
    (setPaysFee r xt).info = xt.info := by
  unfold setPaysFee
  split
  · split
    · split <;> rfl
    · rfl
  · rfl

lemma setPaysFee_signature (r : EventRecord) (xt : IExtrinsic) :
    (setPaysFee r xt).signature = xt.signature := by
  unfold setPaysFee
  split
  · split
    · split <;> rfl
    · rfl
  · rfl

lemma setPaysFee_success (r : EventRecord) (xt : IExtrinsic) :
    (setPaysFee r xt).success = xt.success := by
  unfold setPaysFee
  split
  · split
    · split <;> rfl
    · rfl
  · rfl

lemma setPaysFee_of_unsigned (r : EventRecord) (xt : IExtrinsic)
    (h : xt.signature = none) : setPaysFee r xt = xt := by
  unfold setPaysFee
  split
  · rw [h]; rfl
  · rfl

lemma attributeEvent_info (r : EventRecord) (se : SanitizedEvent)
    (xt : IExtrinsic) : (attributeEvent r se xt).info = xt.info := by
  show (setPaysFee r (setSuccess r xt)).info = xt.info
  rw [setPaysFee_info, setSuccess_info]

lemma attributeEvent_signature (r : EventRecord) (se : SanitizedEvent)
    (xt : IExtrinsic) :
    (attributeEvent r se xt).signature = xt.signature := by
  show (setPaysFee r (setSuccess r xt)).signature = xt.signature
  rw [setPaysFee_signature, setSuccess_signature]

lemma attributeEvent_success (r : EventRecord) (se : SanitizedEvent)
    (xt : IExtrinsic) :
    (attributeEvent r se xt).success =
      if r.method = "ExtrinsicSuccess" then .b true else xt.success := by
  show (setPaysFee r (setSuccess r xt)).success = _
  rw [setPaysFee_success, setSuccess_success]

lemma attributeEvent_paysFee_unsigned (r : EventRecord)
    (se : SanitizedEvent) (xt : IExtrinsic) (h : xt.signature = none) :
    (attributeEvent r se xt).paysFee = xt.paysFee := by
  show (setPaysFee r (setSuccess r xt)).paysFee = xt.paysFee
  rw [setPaysFee_of_unsigned _ _ (by rw [setSuccess_signature]; exact h),
    setSuccess_paysFee]

end Sidecar

namespace Sidecar

/-! ## Plumbing lemmas for `Except` and the sanitize fold -/

lemma except_bind_ok {α β : Type} {x : Except String α}
    {g : α → Except String β} {b : β} (h : (x >>= g) = .ok b) :
    ∃ a, x = .ok a ∧ g a = .ok b := by
  cases x with
  | error e => simp [Bind.bind, Except.bind] at h
  | ok a => exact ⟨a, rfl, by simpa [Bind.bind, Except.bind] using h⟩

lemma except_bind_error {α β : Type} {x : Except String α}
    {g : α → Except String β} {msg : String}
    (h : (x >>= g) = .error msg) :
    x = .error msg ∨ ∃ a, x = .ok a ∧ g a = .error msg := by
  cases x with
  | error e => left; simpa [Bind.bind, Except.bind] using h
  | ok a => right; exact ⟨a, rfl, by simpa [Bind.bind, Except.bind] using h⟩

lemma sanitizeStep_ok_length {api : ChainApi} {ed : Bool} {hs : String}
    {st : SanState} {r : EventRecord} {st' : SanState}
    (h : sanitizeStep api ed hs st r = .ok st') :
    st'.extrinsics.length = st.extrinsics.length := by
  unfold sanitizeStep at h
  split at h
  · split at h
    · simp at h
    · simp only [Except.ok.injEq] at h
      subst h
      simp [List.length_set]
  · simp only [Except.ok.injEq] at h; subst h; rfl
  · simp only [Except.ok.injEq] at h; subst h; rfl
  · simp only [Except.ok.injEq] at h; subst h; rfl

lemma sanitizeStep_ok_inrange {api : ChainApi} {ed : Bool} {hs : String}
    {st : SanState} {r : EventRecord} {st' : SanState}
    (h : sanitizeStep api ed hs st r = .ok st') (i : Nat)
    (hph : r.phase = .applyExtrinsic i) : i < st.extrinsics.length := by
  unfold sanitizeStep at h
  split at h
  next j heq =>
    rw [hph] at heq
    injection heq with hj
    subst hj
    split at h
    next hg => exact Except.noConfusion h
    next xt hg => exact (List.getElem?_eq_some.mp hg).1
  all_goals (rename_i heq; rw [hph] at heq; exact Phase.noConfusion heq)

lemma sanitizeStep_error_shape {api : ChainApi} {ed : Bool} {hs : String}
    {st : SanState} {r : EventRecord} {msg : String}
    (h : sanitizeStep api ed hs st r = .error msg) :
    ∃ i, r.phase = .applyExtrinsic i ∧ st.extrinsics.length ≤ i ∧
      msg = missingMsg i hs := by
  unfold sanitizeStep at h
  split at h
  next i heq =>
    split at h
    next hg =>
      refine ⟨i, heq, ?_, ?_⟩
      · by_contra hlt
        push_neg at hlt
        rw [List.getElem?_eq_getElem hlt] at hg
        cases hg
      · simpa using h.symm
    · simp at h
  · simp at h
  · simp at h
  · simp at h

lemma sanitizeStep_ok_get_apply {api : ChainApi} {ed : Bool} {hs : String}
    {st : SanState} {r : EventRecord} {st' : SanState}
    (h : sanitizeStep api ed hs st r = .ok st') (i : Nat)
    (hph : r.phase = .applyExtrinsic i) (idx : Nat) :
    st'.extrinsics[idx]? =
      if i = idx then
        (st.extrinsics[idx]?).map
          (attributeEvent r (mkSanitizedEvent api ed r))
      else st.extrinsics[idx]? := by
  unfold sanitizeStep at h
  split at h
  next j heq =>
    rw [hph] at heq
    injection heq with hj
    subst hj
    split at h
    next hg => exact Except.noConfusion h
    next xt hg =>
      simp only [Except.ok.injEq] at h
      subst h
      by_cases hii : i = idx
      · subst hii
        have hlt : i < st.extrinsics.length := (List.getElem?_eq_some.mp hg).1
        simp only [if_pos rfl]
        rw [List.getElem?_set_eq_of_lt _ hlt, hg]
        rfl
      · simp only [if_neg hii]
        exact List.getElem?_set_ne hii
  all_goals (rename_i heq; rw [hph] at heq; exact Phase.noConfusion heq)

lemma sanitizeStep_ok_get_nonapply {api : ChainApi} {ed : Bool}
    {hs : String} {st : SanState} {r : EventRecord} {st' : SanState}
    (h : sanitizeStep api ed hs st r = .ok st')
    (hph : ∀ i, r.phase ≠ .applyExtrinsic i) :
    st'.extrinsics = st.extrinsics := by
  unfold sanitizeStep at h
  split at h
  next i heq => exact absurd heq (hph i)
  all_goals (simp only [Except.ok.injEq] at h; subst h; rfl)

end Sidecar

namespace Sidecar

/-! ## Lemmas about the full sanitize fold -/

lemma sanitize_fold_ok_length {api : ChainApi} {ed : Bool} {hs : String} :
    ∀ (records : List EventRecord) (st st' : SanState),
      records.foldlM (sanitizeStep api ed hs) st = .ok st' →
      st'.extrinsics.length = st.extrinsics.length := by
  intro records
  induction records with
  | nil =>
    intro st st' h
    simp only [List.foldlM_nil, pure, Except.pure, Except.ok.injEq] at h
    subst h; rfl
  | cons r rest ih =>
    intro st st' h
    rw [List.foldlM_cons] at h
    obtain ⟨st1, hstep, hrest⟩ := except_bind_ok h
    rw [ih st1 st' hrest, sanitizeStep_ok_length hstep]

lemma sanitize_fold_pres {api : ChainApi} {ed : Bool} {hs : String}
    (P : IExtrinsic → Prop)
    (hP : ∀ r se xt, P xt → P (attributeEvent r se xt)) :
    ∀ (records : List EventRecord) (st st' : SanState),
      records.foldlM (sanitizeStep api ed hs) st = .ok st' →
      ∀ (idx : Nat), (∀ xt, st.extrinsics[idx]? = some xt → P xt) →
        ∀ xt', st'.extrinsics[idx]? = some xt' → P xt' := by
  intro records
  induction records with
  | nil =>
    intro st st' h idx hinit xt' hxt'
    simp only [List.foldlM_nil, pure, Except.pure, Except.ok.injEq] at h
    subst h
    exact hinit xt' hxt'
  | cons r rest ih =>
    intro st st' h idx hinit xt' hxt'
    rw [List.foldlM_cons] at h
    obtain ⟨st1, hstep, hrest⟩ := except_bind_ok h
    refine ih st1 st' hrest idx ?_ xt' hxt'
    intro xt1 hxt1
    by_cases hap : ∃ i, r.phase = .applyExtrinsic i
    · obtain ⟨i, hph⟩ := hap
      rw [sanitizeStep_ok_get_apply hstep i hph idx] at hxt1
      by_cases hii : i = idx
      · rw [if_pos hii] at hxt1
        rcases hg : st.extrinsics[idx]? with _ | xt0
        · rw [hg] at hxt1; cases hxt1
        · rw [hg] at hxt1
          simp only [Option.map_some', Option.some.injEq] at hxt1
          subst hxt1
          exact hP _ _ _ (hinit xt0 hg)
      · rw [if_neg hii] at hxt1
        exact hinit xt1 hxt1
    · push_neg at hap
      rw [sanitizeStep_ok_get_nonapply hstep hap] at hxt1
      exact hinit xt1 hxt1

lemma sanitize_fold_success {api : ChainApi} {ed : Bool} {hs : String} :
    ∀ (records : List EventRecord) (st st' : SanState),
      records.foldlM (sanitizeStep api ed hs) st = .ok st' →
      ∀ idx xt xt', st.extrinsics[idx]? = some xt →
        st'.extrinsics[idx]? = some xt' →
        ((xt'.success = .b true ↔
            (xt.success = .b true ∨ ∃ r ∈ records, isSuccessFor idx r)) ∧
          (xt'.success = .b true ∨ xt'.success = xt.success)) := by
  intro records
  induction records with
  | nil =>
    intro st st' h idx xt xt' hxt hxt'
    simp only [List.foldlM_nil, pure, Except.pure, Except.ok.injEq] at h
    subst h
    rw [hxt] at hxt'
    cases hxt'
    constructor
    · simp
    · right; rfl
  | cons r rest ih =>
    intro st st' h idx xt xt' hxt hxt'
    rw [List.foldlM_cons] at h
    obtain ⟨st1, hstep, hrest⟩ := except_bind_ok h
    have hmem : (∃ r' ∈ r :: rest, isSuccessFor idx r') ↔
        (isSuccessFor idx r ∨ ∃ r' ∈ rest, isSuccessFor idx r') := by
      constructor
      · rintro ⟨r', hr', hs'⟩
        rcases List.mem_cons.mp hr' with rfl | hr'
        · exact Or.inl hs'
        · exact Or.inr ⟨r', hr', hs'⟩
      · rintro (hs' | ⟨r', hr', hs'⟩)
        · exact ⟨r, List.mem_cons_self r rest, hs'⟩
        · exact ⟨r', List.mem_cons_of_mem r hr', hs'⟩
    by_cases hap : r.phase = .applyExtrinsic idx
    · have hget := sanitizeStep_ok_get_apply hstep idx hap idx
      rw [if_pos rfl, hxt] at hget
      have ihres := ih st1 st' hrest idx _ xt' hget hxt'
      rw [attributeEvent_success] at ihres
      by_cases hm : r.method = "ExtrinsicSuccess"
      · rw [if_pos hm] at ihres
        constructor
        · rw [ihres.1, hmem]
          have : isSuccessFor idx r := ⟨hap, hm⟩
          simp [this]
        · left
          rw [ihres.1]
          left; rfl
      · rw [if_neg hm] at ihres
        constructor
        · rw [ihres.1, hmem]
          have hnr : ¬ isSuccessFor idx r := fun hc => hm hc.2
          simp [hnr]
        · exact ihres.2
    · have hxt1 : st1.extrinsics[idx]? = some xt := by
        by_cases hap2 : ∃ i, r.phase = .applyExtrinsic i
        · obtain ⟨i, hph⟩ := hap2
          have hget := sanitizeStep_ok_get_apply hstep i hph idx
          have hii : i ≠ idx := fun hc => hap (hc ▸ hph)
          rw [if_neg hii] at hget
          rw [hget, hxt]
        · push_neg at hap2
          rw [sanitizeStep_ok_get_nonapply hstep hap2, hxt]
      have ihres := ih st1 st' hrest idx xt xt' hxt1 hxt'
      constructor
      · rw [ihres.1, hmem]
        have hnr : ¬ isSuccessFor idx r := fun hc => hap hc.1
        simp [hnr]
      · exact ihres.2

lemma sanitize_fold_inrange {api : ChainApi} {ed : Bool} {hs : String} :
    ∀ (records : List EventRecord) (st st' : SanState),
      records.foldlM (sanitizeStep api ed hs) st = .ok st' →
      ∀ r ∈ records, ∀ i, r.phase = .applyExtrinsic i →
        i < st.extrinsics.length := by
  intro records
  induction records with
  | nil => intro st st' _ r hr; cases hr
  | cons r0 rest ih =>
    intro st st' h r hr i hph
    rw [List.foldlM_cons] at h
    obtain ⟨st1, hstep, hrest⟩ := except_bind_ok h
    rcases List.mem_cons.mp hr with rfl | hr'
    · exact sanitizeStep_ok_inrange hstep i hph
    · have := ih st1 st' hrest r hr' i hph
      rwa [sanitizeStep_ok_length hstep] at this

lemma sanitize_fold_error_shape {api : ChainApi} {ed : Bool} {hs : String} :
    ∀ (records : List EventRecord) (st : SanState) (msg : String),
      records.foldlM (sanitizeStep api ed hs) st = .error msg →
      ∃ i, msg = missingMsg i hs := by
  intro records
  induction records with
  | nil =>
    intro st msg h
    simp only [List.foldlM_nil, pure, Except.pure] at h
    exact Except.noConfusion h
  | cons r rest ih =>
    intro st msg h
    rw [List.foldlM_cons] at h
    rcases except_bind_error h with herr | ⟨st1, _, hrest⟩
    · obtain ⟨i, _, _, hmsg⟩ := sanitizeStep_error_shape herr
      exact ⟨i, hmsg⟩
    · exact ih st1 msg hrest

end Sidecar

namespace Sidecar

/-! ## Lemmas about the fee loop -/

lemma feeStep_paysFee (api : ChainApi) (cf : CalcFeeResult)
    (raw : RawExtrinsic) (xt : IExtrinsic) :
    (feeStep api cf raw xt).paysFee = xt.paysFee := by
  unfold feeStep
  split
  · rfl
  · split <;> rfl

lemma feeStep_success (api : ChainApi) (cf : CalcFeeResult)
    (raw : RawExtrinsic) (xt : IExtrinsic) :
    (feeStep api cf raw xt).success = xt.success := by
  unfold feeStep
  split
  · rfl
  · split <;> rfl

lemma feeStep_skip (api : ChainApi) (cf : CalcFeeResult)
    (raw : RawExtrinsic) (xt : IExtrinsic)
    (h : xt.paysFee ≠ some true ∨ raw.isSigned = false) :
    feeStep api cf raw xt = xt := by
  unfold feeStep
  rw [if_pos]
  rcases h with h | h
  · simp [h]
  · simp [h]

lemma feeBody_eq (api : ChainApi) (cf : CalcFeeResult)
    (raws : List RawExtrinsic) (acc : List IExtrinsic) (idx : Nat) :
    feeBody api cf raws acc idx =
      match raws[idx]?, acc[idx]? with
      | some raw, some xt => acc.set idx (feeStep api cf raw xt)
      | _, _ => acc := rfl

lemma feeBody_length (api : ChainApi) (cf : CalcFeeResult)
    (raws : List RawExtrinsic) (acc : List IExtrinsic) (idx : Nat) :
    (feeBody api cf raws acc idx).length = acc.length := by
  unfold feeBody
  split
  · exact List.length_set ..
  · rfl

lemma feeLoop_range_length (api : ChainApi) (cf : CalcFeeResult)
    (raws : List RawExtrinsic) :
    ∀ (k : Nat) (xts : List IExtrinsic),
      ((List.range k).foldl (feeBody api cf raws) xts).length = xts.length := by
  intro k
  induction k with
  | zero => intro xts; rfl
  | succ k ih =>
    intro xts
    rw [List.range_succ, List.foldl_append, List.foldl_cons, List.foldl_nil,
      feeBody_length, ih]

lemma feeLoop_range_get (api : ChainApi) (cf : CalcFeeResult)
    (raws : List RawExtrinsic) :
    ∀ (k : Nat) (xts : List IExtrinsic),
      xts.length = raws.length → ∀ (idx : Nat),
      ((List.range k).foldl (feeBody api cf raws) xts)[idx]? =
        if idx < k then
          match raws[idx]?, xts[idx]? with
          | some raw, some xt => some (feeStep api cf raw xt)
          | _, _ => xts[idx]?
        else xts[idx]? := by
  intro k
  induction k with
  | zero =>
    intro xts _ idx
    simp
  | succ k ih =>
    intro xts hlen idx
    rw [List.range_succ, List.foldl_append, List.foldl_cons, List.foldl_nil]
    have hlenk : ((List.range k).foldl (feeBody api cf raws) xts).length =
        xts.length := feeLoop_range_length ..
    rcases Nat.lt_trichotomy idx k with hik | hik | hik
    · have hik1 : idx < k + 1 := Nat.lt_succ_of_lt hik
      rw [if_pos hik1]
      have hne : k ≠ idx := (Nat.ne_of_lt hik).symm
      have hbody : (feeBody api cf raws
            ((List.range k).foldl (feeBody api cf raws) xts) k)[idx]? =
          ((List.range k).foldl (feeBody api cf raws) xts)[idx]? := by
        unfold feeBody
        split
        · exact List.getElem?_set_ne hne
        · rfl
      rw [hbody, ih xts hlen idx, if_pos hik]
    · subst hik
      rw [if_pos (Nat.lt_succ_self idx)]
      have hacc : ((List.range idx).foldl (feeBody api cf raws) xts)[idx]? =
          xts[idx]? := by
        rw [ih xts hlen idx, if_neg (Nat.lt_irrefl idx)]
      rcases hr : raws[idx]? with _ | raw
      · have hbody : feeBody api cf raws
            ((List.range idx).foldl (feeBody api cf raws) xts) idx =
            (List.range idx).foldl (feeBody api cf raws) xts := by
          rw [feeBody_eq, hr]
        rw [hbody, hacc]
      · have hltr : idx < raws.length := (List.getElem?_eq_some.mp hr).1
        have hltx : idx < xts.length := hlen ▸ hltr
        rcases hx : xts[idx]? with _ | xt
        · rw [List.getElem?_eq_getElem hltx] at hx
          cases hx
        · have hacc2 : ((List.range idx).foldl (feeBody api cf raws) xts)[idx]?
              = some xt := hacc.trans hx
          have hbody : feeBody api cf raws
              ((List.range idx).foldl (feeBody api cf raws) xts) idx =
              ((List.range idx).foldl (feeBody api cf raws) xts).set idx
                (feeStep api cf raw xt) := by
            rw [feeBody_eq, hr, hacc2]
          rw [hbody, List.getElem?_set_eq_of_lt _ (by rw [hlenk]; exact hltx)]
    · have hik1 : ¬ idx < k + 1 := by omega
      rw [if_neg hik1]
      have hne : k ≠ idx := by omega
      have hbody : (feeBody api cf raws
            ((List.range k).foldl (feeBody api cf raws) xts) k)[idx]? =
          ((List.range k).foldl (feeBody api cf raws) xts)[idx]? := by
        rw [feeBody_eq]
        split
        · exact List.getElem?_set_ne hne
        · rfl
      rw [hbody, ih xts hlen idx]
      rw [if_neg (show ¬ idx < k by omega)]

lemma feeLoop_get (api : ChainApi) (cf : CalcFeeResult)
    (raws : List RawExtrinsic) (xts : List IExtrinsic)
    (hlen : xts.length = raws.length) (idx : Nat) :
    (feeLoop api cf raws xts)[idx]? =
      match raws[idx]?, xts[idx]? with
      | some raw, some xt => some (feeStep api cf raw xt)
      | _, _ => xts[idx]? := by
  unfold feeLoop
  rw [feeLoop_range_get api cf raws raws.length xts hlen idx]
  by_cases hidx : idx < raws.length
  · rw [if_pos hidx]
  · rw [if_neg hidx]
    push_neg at hidx
    rw [List.getElem?_eq_none hidx]

end Sidecar

namespace Sidecar

/-! ## Lemmas about extraction and the `fetchBlock` pipeline -/

lemma extractExtrinsics_get (api : ChainApi) (block : Block)
    (events : Events) (xd : Bool) (fuel : Nat) (idx : Nat) :
    (extractExtrinsics api block events xd fuel)[idx]? =
      (block.extrinsics[idx]?).map (extractOne api block events xd fuel) := by
  unfold extractExtrinsics
  exact List.getElem?_map ..

lemma extractExtrinsics_length (api : ChainApi) (block : Block)
    (events : Events) (xd : Bool) (fuel : Nat) :
    (extractExtrinsics api block events xd fuel).length =
      block.extrinsics.length := List.length_map ..

lemma fetchBlock_ok_cases {api : ChainApi} {hash : List Nat}
    {ed xd : Bool} {fuel : Nat} {p : IBlock × Bool}
    (h : fetchBlock api hash ed xd fuel = .ok p) :
    ∃ st, sanitizeEvents api (fetchEvents api hash)
        (extractExtrinsics api (api.getBlock hash) (fetchEvents api hash)
          xd fuel) (u8aToHex hash) ed = .ok st ∧
      ((((api.getBlock hash).parentHash.all (· == 0)) = true ∧
          p.1.extrinsics = st.extrinsics ∧ p.2 = false) ∨
        (((api.getBlock hash).parentHash.all (· == 0)) = false ∧
          ∃ cf, createCalcFee api (api.getBlock hash).parentHash
              (api.getBlock hash) = .ok cf ∧
            p.1.extrinsics =
              feeLoop api cf (api.getBlock hash).extrinsics st.extrinsics ∧
            p.2 = true)) := by
  unfold fetchBlock at h
  obtain ⟨st, hst, hrest⟩ := except_bind_ok h
  refine ⟨st, hst, ?_⟩
  split at hrest
  next hgen =>
    left
    refine ⟨hgen, ?_, ?_⟩
    · simp only [pure, Except.pure, Except.ok.injEq] at hrest
      rw [← hrest]
    · simp only [pure, Except.pure, Except.ok.injEq] at hrest
      rw [← hrest]
  next hgen =>
    right
    refine ⟨by simpa using hgen, ?_⟩
    obtain ⟨cf, hcf, hpure⟩ := except_bind_ok hrest
    refine ⟨cf, hcf, ?_, ?_⟩
    · simp only [pure, Except.pure, Except.ok.injEq] at hpure
      rw [← hpure]
    · simp only [pure, Except.pure, Except.ok.injEq] at hpure
      rw [← hpure]

end Sidecar

namespace Sidecar

lemma sanitizeEvents_ok_length {api : ChainApi} {events : Events}
    {xts : List IExtrinsic} {hs : String} {ed : Bool} {st : SanState}
    (h : sanitizeEvents api events xts hs ed = .ok st) :
    st.extrinsics.length = xts.length := by
  unfold sanitizeEvents at h
  split at h
  · simp only [Except.ok.injEq] at h; subst h; rfl
  · exact sanitize_fold_ok_length _ _ _ h

lemma sanitizeEvents_pres {api : ChainApi} {events : Events}
    {xts : List IExtrinsic} {hs : String} {ed : Bool} {st : SanState}
    (P : IExtrinsic → Prop)
    (hP : ∀ r se xt, P xt → P (attributeEvent r se xt))
    (h : sanitizeEvents api events xts hs ed = .ok st) (idx : Nat)
    (hinit : ∀ xt, xts[idx]? = some xt → P xt) :
    ∀ xt', st.extrinsics[idx]? = some xt' → P xt' := by
  unfold sanitizeEvents at h
  split at h
  · simp only [Except.ok.injEq] at h; subst h; exact hinit
  · exact sanitize_fold_pres P hP _ _ _ h idx hinit

lemma sanitizeEvents_err {api : ChainApi} {msg : String}
    {xts : List IExtrinsic} {hs : String} {ed : Bool} :
    sanitizeEvents api (.err msg) xts hs ed = .ok ⟨xts, [], []⟩ := rfl

end Sidecar

namespace Sidecar

/-! ## Claim theorems -/

/-- C5: For every unsigned extrinsic in every assembled block, `paysFee`
is `false`, regardless of any events attributed to it: it is initialized
to `false` for unsigned extrinsics and the event-driven `paysFee`
overwrite applies only when the extrinsic has a signature. -/
theorem unsigned_paysFee_false (api : ChainApi) (hash : List Nat)
    (ed xd : Bool) (fuel : Nat) (p : IBlock × Bool) (idx : Nat)
    (raw : RawExtrinsic)
    (hok : fetchBlock api hash ed xd fuel = .ok p)
    (hraw : (api.getBlock hash).extrinsics[idx]? = some raw)
    (huns : raw.isSigned = false) :
    ∃ xt, p.1.extrinsics[idx]? = some xt ∧ xt.paysFee = some false := by
  obtain ⟨st, hst, hcases⟩ := fetchBlock_ok_cases hok
  set block := api.getBlock hash with hblock
  set events := fetchEvents api hash with hevents
  -- The invariant carried from extraction through attribution.
  have hP : ∀ xt', st.extrinsics[idx]? = some xt' →
      (xt'.signature = none ∧ xt'.paysFee = some false) := by
    refine sanitizeEvents_pres _ ?_ hst idx ?_
    · intro r se xt hx
      exact ⟨(attributeEvent_signature r se xt).trans hx.1,
        (attributeEvent_paysFee_unsigned r se xt hx.1).trans hx.2⟩
    · intro xt hxt
      rw [extractExtrinsics_get, hraw, Option.map_some',
        Option.some.injEq] at hxt
      subst hxt
      constructor
      · show (if raw.isSigned then _ else none) = none
        rw [huns]; rfl
      · show (if raw.isSigned then none else some false) = some false
        rw [huns]; rfl
  have hlt : idx < st.extrinsics.length := by
    rw [sanitizeEvents_ok_length hst, extractExtrinsics_length]
    exact (List.getElem?_eq_some.mp hraw).1
  obtain ⟨xt1, hxt1⟩ : ∃ xt1, st.extrinsics[idx]? = some xt1 :=
    ⟨_, List.getElem?_eq_getElem hlt⟩
  rcases hcases with ⟨_, hx, _⟩ | ⟨_, cf, _, hx, _⟩
  · exact ⟨xt1, by rw [hx]; exact hxt1, (hP xt1 hxt1).2⟩
  · have hlen : st.extrinsics.length = block.extrinsics.length := by
      rw [sanitizeEvents_ok_length hst, extractExtrinsics_length]
    refine ⟨feeStep api cf raw xt1, ?_, ?_⟩
    · rw [hx, feeLoop_get api cf _ _ hlen idx, hraw, hxt1]
    · rw [feeStep_paysFee]
      exact (hP xt1 hxt1).2

/-- C5 witness: in the fixture run, the unsigned `timestamp.set`
extrinsic of the assembled block has `paysFee = false`. -/
theorem unsigned_paysFee_false_witness :
    ∃ p xt, fetchBlock apiSupported [9] false false 1 = .ok p ∧
      p.1.extrinsics[0]? = some xt ∧ xt.paysFee = some false := by
  have hko : (fetchBlock apiSupported [9] false false 1).isOk = true := by rfl
  rcases hok : fetchBlock apiSupported [9] false false 1 with msg | p
  · rw [hok] at hko; cases hko
  · obtain ⟨xt, hxt, hpf⟩ := unsigned_paysFee_false apiSupported [9]
      false false 1 p 0 rawUnsigned hok rfl rfl
    exact ⟨p, xt, rfl, hxt, hpf⟩

end Sidecar

namespace Sidecar

/-- C4: For every block whose parent hash consists of zero bytes only,
the assembled result carries no fee info on any extrinsic and the fee
calculator (`createCalcFee` and the fee loop) is never invoked (the
invocation flag of `fetchBlock` is `false`): the minimal block record is
returned directly. -/
theorem genesis_block_no_fee (api : ChainApi) (hash : List Nat)
    (ed xd : Bool) (fuel : Nat) (p : IBlock × Bool)
    (hgen : (api.getBlock hash).parentHash.all (· == 0) = true)
    (hok : fetchBlock api hash ed xd fuel = .ok p) :
    p.2 = false ∧ ∀ xt ∈ p.1.extrinsics, xt.info = .empty := by
  obtain ⟨st, hst, hcases⟩ := fetchBlock_ok_cases hok
  rcases hcases with ⟨_, hx, hflag⟩ | ⟨hngen, _⟩
  · refine ⟨hflag, ?_⟩
    intro xt hmem
    rw [hx] at hmem
    obtain ⟨idx, hidx⟩ := List.mem_iff_getElem?.mp hmem
    refine sanitizeEvents_pres (fun x => x.info = .empty) ?_ hst idx ?_ xt hidx
    · intro r se x hxi
      exact (attributeEvent_info r se x).trans hxi
    · intro x0 hx0
      rw [extractExtrinsics_get] at hx0
      rcases hraw : (api.getBlock hash).extrinsics[idx]? with _ | raw
      · rw [hraw] at hx0; cases hx0
      · rw [hraw, Option.map_some', Option.some.injEq] at hx0
        subst hx0
        rfl
  · rw [hgen] at hngen
    cases hngen

/-- C4 witness: the genesis fixture block assembles with the fee
calculator not invoked and every `info` left empty. -/
theorem genesis_block_no_fee_witness :
    ∃ p, fetchBlock apiGenesis [1] false false 1 = .ok p ∧
      p.2 = false ∧ ∀ xt ∈ p.1.extrinsics, xt.info = .empty := by
  have hko : (fetchBlock apiGenesis [1] false false 1).isOk = true := by rfl
  rcases hok : fetchBlock apiGenesis [1] false false 1 with msg | p
  · rw [hok] at hko; cases hko
  · exact ⟨p, rfl, genesis_block_no_fee apiGenesis [1] false false 1 p rfl hok⟩

end Sidecar

namespace Sidecar

/-- C10: If the events fetch fails (events are replaced by the sentinel
error string), then for every extrinsic of the assembled block — signed
or unsigned — the per-extrinsic fee computation is skipped (signed
extrinsics keep `paysFee = null`, unsigned keep `paysFee = false`, so
the fee loop's `paysFee` guard rejects all of them) and every
extrinsic's `info` field remains the empty object: no fee amount and no
fee-error message is ever recorded in degraded mode. -/
theorem degraded_mode_no_fee (api : ChainApi) (hash : List Nat)
    (ed xd : Bool) (fuel : Nat) (p : IBlock × Bool) (idx : Nat)
    (raw : RawExtrinsic)
    (hev : api.queryEventsAt hash = none)
    (hok : fetchBlock api hash ed xd fuel = .ok p)
    (hraw : (api.getBlock hash).extrinsics[idx]? = some raw) :
    ∃ xt, p.1.extrinsics[idx]? = some xt ∧ xt.info = .empty ∧
      xt.paysFee = (if raw.isSigned then none else some false) := by
  obtain ⟨st, hst, hcases⟩ := fetchBlock_ok_cases hok
  have hfe : fetchEvents api hash =
      .err "Unable to fetch Events, cannot confirm extrinsic status. Check pruning settings on the node." := by
    unfold fetchEvents
    rw [hev]
  rw [hfe, sanitizeEvents_err, Except.ok.injEq] at hst
  have hstx : st.extrinsics =
      extractExtrinsics api (api.getBlock hash) (fetchEvents api hash)
        xd fuel := by
    rw [← hst, hfe]
  have hx0 : st.extrinsics[idx]? =
      some (extractOne api (api.getBlock hash) (fetchEvents api hash)
        xd fuel raw) := by
    rw [hstx, extractExtrinsics_get, hraw, Option.map_some']
  have hpf0 : (extractOne api (api.getBlock hash) (fetchEvents api hash)
      xd fuel raw).paysFee = (if raw.isSigned then none else some false) := rfl
  have hinfo0 : (extractOne api (api.getBlock hash) (fetchEvents api hash)
      xd fuel raw).info = .empty := rfl
  rcases hcases with ⟨_, hx, _⟩ | ⟨_, cf, _, hx, _⟩
  · exact ⟨_, by rw [hx]; exact hx0, hinfo0, hpf0⟩
  · have hlen : st.extrinsics.length = (api.getBlock hash).extrinsics.length := by
      rw [hstx, extractExtrinsics_length]
    have hskip : feeStep api cf raw
        (extractOne api (api.getBlock hash) (fetchEvents api hash)
          xd fuel raw) =
        extractOne api (api.getBlock hash) (fetchEvents api hash)
          xd fuel raw := by
      refine feeStep_skip api cf raw _ ?_
      rcases hsig : raw.isSigned with _ | _
      · right; rfl
      · left
        rw [hpf0, hsig]
        simp
    refine ⟨_, ?_, hinfo0, hpf0⟩
    rw [hx, feeLoop_get api cf _ _ hlen idx, hraw, hx0]
    show some (feeStep api cf raw _) = _
    rw [hskip]

/-- C10 witness: with a failing events query, the signed fixture
extrinsic keeps `paysFee = null` and an empty `info`. -/
theorem degraded_mode_no_fee_witness :
    ∃ p xt, fetchBlock apiEventsFail [9] false false 1 = .ok p ∧
      p.1.extrinsics[1]? = some xt ∧ xt.info = .empty ∧ xt.paysFee = none := by
  have hko : (fetchBlock apiEventsFail [9] false false 1).isOk = true := by rfl
  rcases hok : fetchBlock apiEventsFail [9] false false 1 with msg | p
  · rw [hok] at hko; cases hko
  · obtain ⟨xt, hxt, hinfo, hpf⟩ := degraded_mode_no_fee apiEventsFail [9]
      false false 1 p 1 rawSigned rfl hok rfl
    exact ⟨p, xt, rfl, hxt, hinfo, hpf⟩

end Sidecar

namespace Sidecar

lemma feeLoop_length (api : ChainApi) (cf : CalcFeeResult)
    (raws : List RawExtrinsic) (xts : List IExtrinsic) :
    (feeLoop api cf raws xts).length = xts.length :=
  feeLoop_range_length ..

lemma feeLoop_get_some {api : ChainApi} {cf : CalcFeeResult}
    {raws : List RawExtrinsic} {xts : List IExtrinsic} {idx : Nat}
    {xt : IExtrinsic} (hlen : xts.length = raws.length)
    (hxt : (feeLoop api cf raws xts)[idx]? = some xt) :
    ∃ raw xt1, raws[idx]? = some raw ∧ xts[idx]? = some xt1 ∧
      xt = feeStep api cf raw xt1 := by
  rw [feeLoop_get api cf raws xts hlen idx] at hxt
  rcases hr : raws[idx]? with _ | raw
  · have hge : raws.length ≤ idx := List.getElem?_eq_none_iff.mp hr
    have hxn : xts[idx]? = none := List.getElem?_eq_none (hlen ▸ hge)
    rw [hr, hxn] at hxt
    cases hxt
  · rcases hx1 : xts[idx]? with _ | xt1
    · have hlt : idx < raws.length := (List.getElem?_eq_some.mp hr).1
      rw [List.getElem?_eq_getElem (hlen ▸ hlt)] at hx1
      cases hx1
    · rw [hr, hx1] at hxt
      simp only [Option.some.injEq] at hxt
      exact ⟨raw, xt1, rfl, rfl, hxt.symm⟩

lemma sanitizeEvents_ok_success {api : ChainApi} {evs : List EventRecord}
    {xts : List IExtrinsic} {hs : String} {ed : Bool} {st : SanState}
    (h : sanitizeEvents api (.ok evs) xts hs ed = .ok st)
    (idx : Nat) (xt xt' : IExtrinsic) (hxt : xts[idx]? = some xt)
    (hxt' : st.extrinsics[idx]? = some xt') :
    (xt'.success = .b true ↔
        (xt.success = .b true ∨ ∃ r ∈ evs, isSuccessFor idx r)) ∧
      (xt'.success = .b true ∨ xt'.success = xt.success) :=
  sanitize_fold_success evs _ _ h idx xt xt' hxt hxt'

/-- C1 (amended): for a block whose events fetch succeeded, an
extrinsic's `success` is `true` iff an `ExtrinsicSuccess` event with
phase `ApplyExtrinsic` of its index was attributed to it, and it is
`false` otherwise — also when an `ExtrinsicFailed` event was attributed
or no completion event at all; the degraded sentinel never appears. -/
theorem success_flag_amended (api : ChainApi) (hash : List Nat)
    (ed xd : Bool) (fuel : Nat) (p : IBlock × Bool)
    (evs : List EventRecord) (idx : Nat) (xt : IExtrinsic)
    (hev : api.queryEventsAt hash = some evs)
    (hok : fetchBlock api hash ed xd fuel = .ok p)
    (hxt : p.1.extrinsics[idx]? = some xt) :
    (xt.success = .b true ↔ ∃ r ∈ evs, isSuccessFor idx r) ∧
      (xt.success = .b true ∨ xt.success = .b false) := by
  obtain ⟨st, hst, hcases⟩ := fetchBlock_ok_cases hok
  have hfe : fetchEvents api hash = .ok evs := by
    unfold fetchEvents
    rw [hev]
  rw [hfe] at hst
  -- The extrinsic as it stood after event attribution.
  have main : ∀ xt1, st.extrinsics[idx]? = some xt1 →
      (xt1.success = .b true ↔ ∃ r ∈ evs, isSuccessFor idx r) ∧
        (xt1.success = .b true ∨ xt1.success = .b false) := by
    intro xt1 hxt1
    have hlt : idx < st.extrinsics.length := (List.getElem?_eq_some.mp hxt1).1
    rw [sanitizeEvents_ok_length hst, extractExtrinsics_length] at hlt
    obtain ⟨raw, hraw⟩ : ∃ raw, (api.getBlock hash).extrinsics[idx]? = some raw :=
      ⟨_, List.getElem?_eq_getElem hlt⟩
    have hx0 : (extractExtrinsics api (api.getBlock hash) (.ok evs)
        xd fuel)[idx]? =
        some (extractOne api (api.getBlock hash) (.ok evs) xd fuel raw) := by
      rw [extractExtrinsics_get, hraw, Option.map_some']
    have hchar := sanitizeEvents_ok_success hst idx _ xt1 hx0 hxt1
    have hs0 : (extractOne api (api.getBlock hash) (.ok evs) xd fuel
        raw).success = .b false := rfl
    rw [hs0] at hchar
    constructor
    · rw [hchar.1]
      constructor
      · rintro (hf | hr)
        · cases hf
        · exact hr
      · exact Or.inr
    · exact hchar.2
  rcases hcases with ⟨_, hx, _⟩ | ⟨_, cf, _, hx, _⟩
  · exact main xt (by rw [← hx]; exact hxt)
  · rw [hx] at hxt
    have hlen : st.extrinsics.length = (api.getBlock hash).extrinsics.length := by
      rw [sanitizeEvents_ok_length hst, extractExtrinsics_length]
    obtain ⟨raw, xt1, _, hxt1, hfs⟩ := feeLoop_get_some hlen hxt
    have := main xt1 hxt1
    rwa [hfs, feeStep_success]

/-- C1 witness: in the fixture run (events fetch succeeded), extrinsic 1
has `success = true` and the attributing `ExtrinsicSuccess` record
exists; `success` is boolean. -/
theorem success_flag_amended_witness :
    ∃ p xt, fetchBlock apiSupported [9] false false 1 = .ok p ∧
      p.1.extrinsics[1]? = some xt ∧
      (xt.success = .b true ↔ ∃ r ∈ [successEvent1], isSuccessFor 1 r) ∧
      (xt.success = .b true ∨ xt.success = .b false) := by
  have hko : (fetchBlock apiSupported [9] false false 1).isOk = true := by rfl
  rcases hok : fetchBlock apiSupported [9] false false 1 with msg | p
  · rw [hok] at hko; cases hko
  · have hxt : ∃ xt, p.1.extrinsics[1]? = some xt := by
      refine ⟨_, List.getElem?_eq_getElem ?_⟩
      obtain ⟨st, hst, hcases⟩ := fetchBlock_ok_cases hok
      rcases hcases with ⟨hgen, _, _⟩ | ⟨_, cf, _, hx, _⟩
      · cases hgen
      · rw [hx, feeLoop_length, sanitizeEvents_ok_length hst,
          extractExtrinsics_length]
        show 1 < blockA.extrinsics.length
        decide
    obtain ⟨xt, hxt⟩ := hxt
    exact ⟨p, xt, rfl, hxt,
      success_flag_amended apiSupported [9] false false 1 p [successEvent1]
        1 xt rfl hok hxt⟩

/-- C1 counterexample: with a succeeding events fetch that returns no
events, extrinsic 0 of the assembled block has `success = false`
although no `ExtrinsicFailed` event was attributed to it — refuting
"`success == false` iff an `ExtrinsicFailed` event was attributed". -/
theorem success_flag_claim_cex :
    ((fetchBlock apiNoEvents [9] false false 1).map
        (fun q => q.1.extrinsics.map (fun x => x.success))) =
      .ok [SuccessVal.b false, SuccessVal.b false] ∧
    apiNoEvents.queryEventsAt [9] = some [] ∧
    ¬ (SuccessVal.b false = SuccessVal.b false ↔
        ∃ r ∈ ([] : List EventRecord), r.phase = Phase.applyExtrinsic 0 ∧
          r.method = "ExtrinsicFailed") := by
  refine ⟨by rfl, rfl, ?_⟩
  intro hiff
  obtain ⟨r, hr, _⟩ := hiff.mp rfl
  cases hr

end Sidecar

namespace Sidecar

lemma sanitizeStep_apply_eq (api : ChainApi) (ed : Bool) (hs : String)
    (st : SanState) (r : EventRecord) (i : Nat)
    (hph : r.phase = .applyExtrinsic i) :
    sanitizeStep api ed hs st r =
      match st.extrinsics[i]? with
      | none => .error (missingMsg i hs)
      | some xt =>
        .ok { st with extrinsics :=
          st.extrinsics.set i (attributeEvent r (mkSanitizedEvent api ed r) xt) } := by
  unfold sanitizeStep
  rw [hph]

/-- C6: If any event in the fetched event stream has phase
`ApplyExtrinsic(i)` with `i` at or beyond the number of extrinsics,
event attribution fails the whole assembly with an error whose message
ends in the block hash; for `i` within range, the attribution step never
throws for that event. -/
theorem oob_event_phase_fatal (api : ChainApi) (ed : Bool) (hs : String) :
    (∀ (records : List EventRecord) (xts : List IExtrinsic)
        (r : EventRecord) (i : Nat), r ∈ records →
        r.phase = .applyExtrinsic i → xts.length ≤ i →
        ∃ msg pre, sanitizeEvents api (.ok records) xts hs ed = .error msg ∧
          msg = pre ++ hs) ∧
      (∀ (st : SanState) (r : EventRecord) (i : Nat),
        r.phase = .applyExtrinsic i → i < st.extrinsics.length →
        ∃ st', sanitizeStep api ed hs st r = .ok st') := by
  constructor
  · intro records xts r i hr hph hge
    rcases hres : sanitizeEvents api (.ok records) xts hs ed with msg | st
    · obtain ⟨i', hmsg⟩ := sanitize_fold_error_shape records _ _ hres
      refine ⟨msg, "Missing extrinsic " ++ toString i' ++ " in block ", rfl, ?_⟩
      rw [hmsg]
      unfold missingMsg
      rw [String.append_assoc, String.append_assoc]
    · exfalso
      have := sanitize_fold_inrange records _ _ hres r hr i hph
      simp only at this
      omega
  · intro st r i hph hlt
    obtain ⟨xt, hxt⟩ : ∃ xt, st.extrinsics[i]? = some xt :=
      ⟨_, List.getElem?_eq_getElem hlt⟩
    exact ⟨{ st with extrinsics :=
        st.extrinsics.set i (attributeEvent r (mkSanitizedEvent api ed r) xt) },
      by rw [sanitizeStep_apply_eq api ed hs st r i hph, hxt]⟩

/-- C6 witness: an `ApplyExtrinsic(5)` event against an empty extrinsic
list aborts attribution with the hash-bearing message, and an in-range
event goes through. -/
theorem oob_event_phase_fatal_witness :
    (∃ msg pre, sanitizeEvents apiSupported (.ok [eventOob]) [] "0xff" false =
        .error msg ∧ msg = pre ++ "0xff") ∧
      (∃ st', sanitizeStep apiSupported false "0xff"
        ⟨extractExtrinsics apiSupported blockA (.ok [successEvent1]) false 1,
          [], []⟩ successEvent1 = .ok st') :=
  ⟨(oob_event_phase_fatal apiSupported false "0xff").1 [eventOob] [] eventOob
      5 (List.mem_cons_self ..) rfl (by decide),
    (oob_event_phase_fatal apiSupported false "0xff").2 _ successEvent1 1 rfl
      (by show 1 < blockA.extrinsics.length; decide)⟩

end Sidecar

namespace Sidecar

lemma createCalcFee_supported {api : ChainApi} {parentHash : List Nat}
    {block : Block} {r : CalcFeeResult} {pb w : Nat}
    (hpb : api.transactionByteFee = some pb)
    (hbw : sysBaseWeightOrThrow api.systemConsts = .ok (some w))
    (hnm : api.hasNextFeeMultiplierAt = true)
    (hok : createCalcFee api parentHash block = .ok r) :
    ∃ bw, resolveExtrinsicBaseWeight api
        (if block.number > 1 then api.getHeaderParentHash parentHash
          else parentHash)
        (api.getRuntimeVersionAt
          (if block.number > 1 then api.getHeaderParentHash parentHash
            else parentHash)).specName
        (api.getRuntimeVersionAt
          (if block.number > 1 then api.getHeaderParentHash parentHash
            else parentHash)).specVersion = .ok (some bw) ∧
      r = { calcFee := (api.fromParams
              (api.weightToFee.map fun c =>
                { coeffInteger := toString c.coeffInteger
                  coeffFrac := c.coeffFrac
                  degree := c.degree
                  negative := c.negative })
              bw (api.nextFeeMultiplierAt parentHash)
              (if block.number < 515500 then "1000000000" else toString pb)
              (api.getRuntimeVersionAt
                (if block.number > 1 then api.getHeaderParentHash parentHash
                  else parentHash)).specName
              (api.getRuntimeVersionAt
                (if block.number > 1 then api.getHeaderParentHash parentHash
                  else parentHash)).specVersion).map CalcFeeObj.real
            specName := .s (api.getRuntimeVersionAt
              (if block.number > 1 then api.getHeaderParentHash parentHash
                else parentHash)).specName
            specVersion := .n (api.getRuntimeVersionAt
              (if block.number > 1 then api.getHeaderParentHash parentHash
                else parentHash)).specVersion } := by
  unfold createCalcFee at hok
  obtain ⟨ebwe, hebwe, hok⟩ := except_bind_ok hok
  have hebw : ebwe = some w := by
    have := hbw.symm.trans hebwe
    exact (by simpa using this : some w = ebwe).symm
  subst hebw
  rw [hpb] at hok
  simp only [hnm, Option.isNone_some, Bool.not_true, Bool.false_eq_true,
    or_self, if_false] at hok
  obtain ⟨ebwOpt, hres, hok⟩ := except_bind_ok hok
  rcases ebwOpt with _ | bw
  · exact Except.noConfusion hok
  · simp only [pure, Except.pure, Except.ok.injEq] at hok
    exact ⟨bw, hres, hok.symm⟩

/-- C3: When `createCalcFee` builds the fee context (the fee-calculation
materials are all present), the `(specName, specVersion)` it returns is
resolved by a runtime-version query at the parent of the block's parent
when the block's height is above 1, and at the parent hash when the
height is at most 1 — never from the block's own reported version. -/
theorem feecontext_resolves_grandparent (api : ChainApi)
    (parentHash : List Nat) (block : Block) (r : CalcFeeResult)
    (pb w : Nat)
    (hpb : api.transactionByteFee = some pb)
    (hbw : sysBaseWeightOrThrow api.systemConsts = .ok (some w))
    (hnm : api.hasNextFeeMultiplierAt = true)
    (hok : createCalcFee api parentHash block = .ok r) :
    r.specName = .s (api.getRuntimeVersionAt
        (if block.number > 1 then api.getHeaderParentHash parentHash
          else parentHash)).specName ∧
      r.specVersion = .n (api.getRuntimeVersionAt
        (if block.number > 1 then api.getHeaderParentHash parentHash
          else parentHash)).specVersion := by
  obtain ⟨bw, _, hr⟩ := createCalcFee_supported hpb hbw hnm hok
  rw [hr]
  exact ⟨rfl, rfl⟩

/-- C3 witness: with a runtime upgrade at the block (grandparent version
`kusama#2`, live version `polkadot#30`), the fee context resolves the
grandparent's version. -/
theorem feecontext_resolves_grandparent_witness :
    ∃ r, createCalcFee apiUpgrade [7] blockA = .ok r ∧
      r.specName = .s (apiUpgrade.getRuntimeVersionAt
          (if blockA.number > 1 then apiUpgrade.getHeaderParentHash [7]
            else [7])).specName ∧
      r.specVersion = .n (apiUpgrade.getRuntimeVersionAt
          (if blockA.number > 1 then apiUpgrade.getHeaderParentHash [7]
            else [7])).specVersion := by
  have hko : (createCalcFee apiUpgrade [7] blockA).isOk = true := by rfl
  rcases hok : createCalcFee apiUpgrade [7] blockA with msg | r
  · rw [hok] at hko; cases hko
  · exact ⟨r, rfl, feecontext_resolves_grandparent apiUpgrade [7] blockA r
      3 5 rfl rfl rfl hok⟩

end Sidecar

namespace Sidecar

/-- C9: Whenever the supported fee path builds a `CalcFee` for a block
of height below 515500, the per-byte fee handed to
`CalcFee.from_params` is the hardcoded historical string
`"1000000000"`; at or above the threshold it is the queried
`transactionPayment.transactionByteFee` constant rendered in decimal. -/
theorem perbyte_fee_override (api : ChainApi) (parentHash : List Nat)
    (block : Block) (r : CalcFeeResult) (pb w : Nat)
    (hpb : api.transactionByteFee = some pb)
    (hbw : sysBaseWeightOrThrow api.systemConsts = .ok (some w))
    (hnm : api.hasNextFeeMultiplierAt = true)
    (hok : createCalcFee api parentHash block = .ok r) :
    ∃ bw, resolveExtrinsicBaseWeight api
        (if block.number > 1 then api.getHeaderParentHash parentHash
          else parentHash)
        (api.getRuntimeVersionAt
          (if block.number > 1 then api.getHeaderParentHash parentHash
            else parentHash)).specName
        (api.getRuntimeVersionAt
          (if block.number > 1 then api.getHeaderParentHash parentHash
            else parentHash)).specVersion = .ok (some bw) ∧
      ((block.number < 515500 →
          r.calcFee = (api.fromParams
            (api.weightToFee.map fun c =>
              { coeffInteger := toString c.coeffInteger
                coeffFrac := c.coeffFrac
                degree := c.degree
                negative := c.negative })
            bw (api.nextFeeMultiplierAt parentHash) "1000000000"
            (api.getRuntimeVersionAt
              (if block.number > 1 then api.getHeaderParentHash parentHash
                else parentHash)).specName
            (api.getRuntimeVersionAt
              (if block.number > 1 then api.getHeaderParentHash parentHash
                else parentHash)).specVersion).map CalcFeeObj.real) ∧
        (¬ block.number < 515500 →
          r.calcFee = (api.fromParams
            (api.weightToFee.map fun c =>
              { coeffInteger := toString c.coeffInteger
                coeffFrac := c.coeffFrac
                degree := c.degree
                negative := c.negative })
            bw (api.nextFeeMultiplierAt parentHash) (toString pb)
            (api.getRuntimeVersionAt
              (if block.number > 1 then api.getHeaderParentHash parentHash
                else parentHash)).specName
            (api.getRuntimeVersionAt
              (if block.number > 1 then api.getHeaderParentHash parentHash
                else parentHash)).specVersion).map CalcFeeObj.real)) := by
  obtain ⟨bw, hres, hr⟩ := createCalcFee_supported hpb hbw hnm hok
  refine ⟨bw, hres, ?_, ?_⟩
  · intro hlow
    rw [hr]
    simp only [if_pos hlow]
  · intro hhigh
    rw [hr]
    simp only [if_neg hhigh]

/-- C9 witness: the fixture block is below the threshold, so the
`CalcFee` is built from the hardcoded `"1000000000"` per-byte value. -/
theorem perbyte_fee_override_witness :
    ∃ r bw, createCalcFee apiSupported [7] blockA = .ok r ∧
      blockA.number < 515500 ∧
      r.calcFee = (apiSupported.fromParams
        (apiSupported.weightToFee.map fun c =>
          { coeffInteger := toString c.coeffInteger
            coeffFrac := c.coeffFrac
            degree := c.degree
            negative := c.negative })
        bw (apiSupported.nextFeeMultiplierAt [7]) "1000000000"
        (apiSupported.getRuntimeVersionAt
          (if blockA.number > 1 then apiSupported.getHeaderParentHash [7]
            else [7])).specName
        (apiSupported.getRuntimeVersionAt
          (if blockA.number > 1 then apiSupported.getHeaderParentHash [7]
            else [7])).specVersion).map CalcFeeObj.real := by
  have hko : (createCalcFee apiSupported [7] blockA).isOk = true := by rfl
  rcases hok : createCalcFee apiSupported [7] blockA with msg | r
  · rw [hok] at hko; cases hko
  · obtain ⟨bw, _, hlow, _⟩ := perbyte_fee_override apiSupported [7] blockA r
      3 5 rfl rfl rfl hok
    exact ⟨r, bw, rfl, by decide, hlow (by decide)⟩

end Sidecar

namespace Sidecar

/-- C2 (amended): if the runtime lacks the weight-to-fee constant, the
base-extrinsic-weight constant, or the fee-multiplier query,
`createCalcFee` installs the *dummy* calculator (which is not `null`,
so the fee loop's "Fee calculation not supported" branch is not taken);
for a signed, `paysFee == true` extrinsic the fee loop then runs the
guarded computation against the dummy, whose every outcome is either
one of the three generic per-extrinsic error records or a
`RuntimeDispatchInfo` with a `null` partial fee — never the
"Fee calculation not supported" error. -/
theorem fee_unsupported_dummy (api : ChainApi) (parentHash : List Nat)
    (block : Block) (ebwe : Option Nat)
    (hbwok : sysBaseWeightOrThrow api.systemConsts = .ok ebwe)
    (hmiss : api.transactionByteFee = none ∨ ebwe = none ∨
      api.hasNextFeeMultiplierAt = false) :
    createCalcFee api parentHash block = .ok (dummyCalcFee api parentHash) ∧
      (dummyCalcFee api parentHash).calcFee = some CalcFeeObj.dummy ∧
      (∀ raw xt, xt.paysFee = some true → raw.isSigned = true →
        feeStep api (dummyCalcFee api parentHash) raw xt =
          { xt with info := tryFeeCompute api CalcFeeObj.dummy raw xt }) ∧
      (∀ raw xt,
        tryFeeCompute api CalcFeeObj.dummy raw xt =
            .error "Unable to find success or failure event for extrinsic" ∨
          tryFeeCompute api CalcFeeObj.dummy raw xt =
            .error "Unable to fetch fee info" ∨
          tryFeeCompute api CalcFeeObj.dummy raw xt =
            .error "Success or failure event for extrinsic does not specify weight" ∨
          ∃ w cls, tryFeeCompute api CalcFeeObj.dummy raw xt =
            api.createRuntimeDispatchInfo w cls none) := by
  refine ⟨?_, rfl, ?_, ?_⟩
  · unfold createCalcFee
    rw [hbwok]
    show (Except.ok ebwe >>= _) = _
    rw [show ∀ g : Option Nat → Except String CalcFeeResult,
        (Except.ok ebwe >>= g) = g ebwe from fun g => rfl]
    rcases hmiss with hm | hm | hm
    · rw [hm]
      rfl
    · rcases hpb : api.transactionByteFee with _ | pb
      · rfl
      · subst hm
        rfl
    · rcases hpb : api.transactionByteFee with _ | pb
      · rfl
      · rw [hm]
        rcases ebwe with _ | w
        · rfl
        · rfl
  · intro raw xt hpf hsig
    unfold feeStep
    rw [if_neg]
    · rfl
    · rw [hpf, hsig]
      simp
  · intro raw xt
    unfold tryFeeCompute
    rcases hf : xt.events.find? (fun e =>
        e.method == "ExtrinsicSuccess" || e.method == "ExtrinsicFailed") with
      _ | ce
    · left
      simp only [hf]
    · rcases hl : ce.data.getLast? with _ | wi
      · right; left
        simp only [hf, hl]
      · rcases hw : wi.weight with _ | w
        · right; right; left
          simp only [hf, hl, hw]
        · right; right; right
          refine ⟨w, wi.cls, ?_⟩
          simp only [hf, hl, hw]
          try rfl

/-- C2 witness: with `transactionByteFee` missing, `createCalcFee`
returns the dummy calculator (and not `null`). -/
theorem fee_unsupported_dummy_witness :
    createCalcFee apiMissingPerByte [7] blockA =
        .ok (dummyCalcFee apiMissingPerByte [7]) ∧
      (dummyCalcFee apiMissingPerByte [7]).calcFee =
        some CalcFeeObj.dummy :=
  ⟨(fee_unsupported_dummy apiMissingPerByte [7] blockA (some 5) rfl
      (Or.inl rfl)).1,
    (fee_unsupported_dummy apiMissingPerByte [7] blockA (some 5) rfl
      (Or.inl rfl)).2.1⟩

/-- C2 counterexample: with `transactionPayment.transactionByteFee`
missing, the signed `paysFee == true` extrinsic of the assembled
non-genesis block receives a `RuntimeDispatchInfo` with a `null`
partial fee — not an `info.error` of any kind, in particular not
"Fee calculation not supported for <specName>#<specVersion>". -/
theorem fee_unsupported_claim_cex :
    apiMissingPerByte.transactionByteFee = none ∧
      ((fetchBlock apiMissingPerByte [9] false false 1).map
        (fun q => q.1.extrinsics.map (fun x => (x.paysFee, x.info)))) =
        .ok [(some false, Info.empty),
          (some true, Info.dispatchInfo 100 "Normal" none)] ∧
      (∀ msg, Info.dispatchInfo 100 "Normal" none ≠ Info.error msg) := by
  refine ⟨rfl, by rfl, ?_⟩
  intro msg h
  cases h

end Sidecar

namespace Sidecar

/-- C7: the fee loop is positional — each extrinsic's outcome is a
function of that extrinsic's own data alone; an exception thrown by
`calc_fee` during one extrinsic's fee computation is caught and
recorded as `{ error: 'Unable to fetch fee info' }` on that extrinsic's
`info` only (every other index keeps its own, unaffected outcome); and
whenever the stages before the fee loop succeeded, `fetchBlock` still
completes and returns the assembled block. -/
theorem per_extrinsic_fee_error_isolated (api : ChainApi)
    (cf : CalcFeeResult) (raws : List RawExtrinsic)
    (xts : List IExtrinsic) (idx : Nat) (raw : RawExtrinsic)
    (xt : IExtrinsic)
    (hlen : xts.length = raws.length)
    (hraw : raws[idx]? = some raw) (hxt : xts[idx]? = some xt) :
    (∀ (j : Nat) (raw' : RawExtrinsic) (xt' : IExtrinsic),
      raws[j]? = some raw' → xts[j]? = some xt' →
      (feeLoop api cf raws xts)[j]? = some (feeStep api cf raw' xt')) ∧
    (∀ (f : CalcFn) (ce : SanitizedEvent) (wi : DataItem) (w : Nat)
        (msg : String),
      cf.calcFee = some (.real f) →
      xt.paysFee = some true → raw.isSigned = true →
      xt.events.find? (fun e =>
        e.method == "ExtrinsicSuccess" || e.method == "ExtrinsicFailed") =
          some ce →
      ce.data.getLast? = some wi → wi.weight = some w →
      f w raw.encodedBytes.length = .error msg →
      (feeLoop api cf raws xts)[idx]? =
        some { xt with info := .error "Unable to fetch fee info" }) ∧
    (∀ (hash : List Nat) (ed xd : Bool) (fuel : Nat) (st : SanState),
      sanitizeEvents api (fetchEvents api hash)
        (extractExtrinsics api (api.getBlock hash) (fetchEvents api hash)
          xd fuel) (u8aToHex hash) ed = .ok st →
      ((api.getBlock hash).parentHash.all (· == 0)) = false →
      createCalcFee api (api.getBlock hash).parentHash
        (api.getBlock hash) = .ok cf →
      ∃ b, fetchBlock api hash ed xd fuel = .ok (b, true) ∧
        b.extrinsics =
          feeLoop api cf (api.getBlock hash).extrinsics st.extrinsics) := by
  have hpoint : ∀ (j : Nat) (raw' : RawExtrinsic) (xt' : IExtrinsic),
      raws[j]? = some raw' → xts[j]? = some xt' →
      (feeLoop api cf raws xts)[j]? = some (feeStep api cf raw' xt') := by
    intro j raw' xt' hr hx
    rw [feeLoop_get api cf raws xts hlen j, hr, hx]
  refine ⟨hpoint, ?_, ?_⟩
  · intro f ce wi w msg hcf hpf hsig hfind hlast hweight hthrow
    rw [hpoint idx raw xt hraw hxt]
    congr 1
    unfold feeStep
    rw [if_neg (by rw [hpf, hsig]; simp), hcf]
    unfold tryFeeCompute
    simp only [hfind, hlast, hweight]
    rw [show calcFeeRun (CalcFeeObj.real f) w raw.encodedBytes.length =
      Except.error msg from hthrow]
  · intro hash ed xd fuel st hsan hgen hcf
    refine ⟨{ number := (api.getBlock hash).number
              hash := hash
              parentHash := (api.getBlock hash).parentHash
              stateRoot := (api.getBlock hash).stateRoot
              extrinsicsRoot := (api.getBlock hash).extrinsicsRoot
              authorId := (if api.hasSessionValidators
                  then some (api.sessionValidatorsAt hash) else none).bind
                (fun vs => extractAuthor api vs (api.getBlock hash).logs)
              logs := (api.getBlock hash).logs
              onInitialize := st.onInitialize
              extrinsics :=
                feeLoop api cf (api.getBlock hash).extrinsics st.extrinsics
              onFinalize := st.onFinalize }, ?_, rfl⟩
    unfold fetchBlock
    dsimp only
    rw [hsan]
    rw [show ∀ g : SanState → Except String (IBlock × Bool),
      ((Except.ok st : Except String SanState) >>= g) = g st
      from fun g => rfl]
    rw [if_neg (by rw [hgen]; simp)]
    rw [hcf]
    rw [show ∀ g : CalcFeeResult → Except String (IBlock × Bool),
      ((Except.ok cf : Except String CalcFeeResult) >>= g) = g cf
      from fun g => rfl]
    rfl

/-- C7 witness: with a throwing `calc_fee`, the paying fixture extrinsic
gets `info = { error: 'Unable to fetch fee info' }`, and the loop entry
is exactly the per-extrinsic `feeStep` outcome. -/
theorem per_extrinsic_fee_error_isolated_witness :
    (feeLoop apiThrowingCalc cfThrow [rawSigned] [xtPay])[0]? =
        some (feeStep apiThrowingCalc cfThrow rawSigned xtPay) ∧
      (feeLoop apiThrowingCalc cfThrow [rawSigned] [xtPay])[0]? =
        some { xtPay with info := .error "Unable to fetch fee info" } := by
  have h := per_extrinsic_fee_error_isolated apiThrowingCalc cfThrow
    [rawSigned] [xtPay] 0 rawSigned xtPay rfl rfl rfl
  exact ⟨h.1 0 rawSigned xtPay rfl rfl,
    h.2.1 (fun _ _ => .error "calc panic") ceSuccess
      { paysFee := some .bTrue, weight := some 100, cls := "Normal" }
      100 "calc panic" rfl rfl rfl rfl rfl rfl rfl⟩

end Sidecar

namespace Sidecar

/-- C8: for a named argument called `call` whose raw type is `Bytes`,
the parser decodes the bytes through the block's registry and recurses
into the decoded call; when the registry decode throws, the raw bytes
pass through unchanged; and parsing of the whole call is a total
function of its arguments, each argument handled independently. -/
theorem opaque_call_bytes_decode (reg : String → Option GCall)
    (fuel : Nat) (hex : String) :
    (∀ c, reg hex = some c →
      parseOneArg reg (fuel + 1) "call" (GArg.plain "Bytes" hex) =
        SArg.parsed (parseGenericCall reg fuel c)) ∧
      (reg hex = none →
        parseOneArg reg (fuel + 1) "call" (GArg.plain "Bytes" hex) =
          SArg.codec (GArg.plain "Bytes" hex)) ∧
      (∀ sec meth args,
        parseGenericCall reg fuel (GCall.mk sec meth (some args)) =
          SCall.mk sec meth (parseArgsList reg fuel args)) ∧
      (∀ name arg rest,
        parseArgsList reg fuel ((name, arg) :: rest) =
          (name, parseOneArg reg fuel name arg) ::
            parseArgsList reg fuel rest) := by
  refine ⟨?_, ?_, ?_, ?_⟩
  · intro c hc
    unfold parseOneArg
    rw [if_pos ⟨rfl, rfl⟩, hc]
  · intro hc
    unfold parseOneArg
    rw [if_pos ⟨rfl, rfl⟩, hc]
  · intro sec meth args
    unfold parseGenericCall
    rfl
  · intro name arg rest
    conv_lhs => unfold parseArgsList

/-- C8 witness: the fixture registry decodes `"0xdead"` (and the parser
recurses into the decoded `balances.transfer`), while the undecodable
`"0xbeef"` falls back to the raw bytes. -/
theorem opaque_call_bytes_decode_witness :
    (parseOneArg regFix 1 "call" (GArg.plain "Bytes" "0xdead") =
        SArg.parsed (parseGenericCall regFix 0
          (GCall.mk "balances" "transfer" (some [])))) ∧
      (parseOneArg regFix 1 "call" (GArg.plain "Bytes" "0xbeef") =
        SArg.codec (GArg.plain "Bytes" "0xbeef")) :=
  ⟨(opaque_call_bytes_decode regFix 0 "0xdead").1
      (GCall.mk "balances" "transfer" (some [])) (by rfl),
    (opaque_call_bytes_decode regFix 0 "0xbeef").2.1 (by rfl)⟩

end Sidecar
